import Mathlib

/-!
Gunk loader: translation of Gunk packages to protobuf descriptors.

A shallow embedding of `loader/loader.go`.  Stateful methods of `*Loader`
become functions from a `Loader` value to a result paired with the updated
`Loader`.  A Go error return is `Failure.error`; a run-time panic (failed type
assertion, nil dereference, write to a nil map) is `Failure.panic`.

Go maps are association lists without duplicate keys; a `range` loop visits
the entries in list order, which stands for the order the Go runtime happens
to pick.
-/

namespace Gunk

/-! ## Results -/

/-- The two ways a Go call can fail to produce its value. -/
inductive Failure where
  | error (msg : String)
  | panic (msg : String)
  deriving DecidableEq, Repr

abbrev Res (α : Type) := Except Failure α

deriving instance DecidableEq for Except

/-- Holds when the call returned a Go error (and did not panic). -/
def Res.isError {α : Type} : Res α → Bool
  | .error (.error _) => true
  | _ => false

/-- Holds when the call panicked. -/
def Res.isPanic {α : Type} : Res α → Bool
  | .error (.panic _) => true
  | _ => false

/-- Holds when the call returned normally with a nil error. -/
def Res.isOk {α : Type} : Res α → Bool
  | .ok _ => true
  | _ => false

/-! ## Go maps with string keys -/

/-- A Go `map[string]β`: distinct keys, each with one value. -/
structure GoMap (β : Type) where
  entries : List (String × β)
  nodup : (entries.map Prod.fst).Nodup

namespace GoMap

variable {β : Type}

/-- The result of `make(map[string]β)`; a nil map reads the same way. -/
def empty : GoMap β := ⟨[], List.nodup_nil⟩

/-- The keys in iteration order. -/
def keys (m : GoMap β) : List String := m.entries.map Prod.fst

/-- The values in iteration order. -/
def values (m : GoMap β) : List β := m.entries.map Prod.snd

/-- The two-result index expression `v, ok := m[k]`. -/
def lookup (m : GoMap β) (k : String) : Option β :=
  (m.entries.find? (fun e => e.1 == k)).map Prod.snd

/-- The assignment `m[k] = v`: overwrite in place, or add a new entry. -/
def set (m : GoMap β) (k : String) (v : β) : GoMap β :=
  if h : k ∈ m.entries.map Prod.fst then
    ⟨m.entries.map (fun e => if e.1 = k then (k, v) else e), by
      have hk : (m.entries.map (fun e => if e.1 = k then (k, v) else e)).map Prod.fst
          = m.entries.map Prod.fst := by
        rw [List.map_map]
        apply List.map_congr_left
        intro e _
        by_cases he : e.1 = k <;> simp [he]
      rw [hk]; exact m.nodup⟩
  else
    ⟨m.entries ++ [(k, v)], by
      rw [List.map_append, List.nodup_append]
      refine ⟨m.nodup, by simp, ?_⟩
      intro a ha hb
      simp at hb
      subst hb
      exact h ha⟩

end GoMap

/-! ## Syntax trees (`go/ast`) -/

/-- An `*ast.Ident`: its name and the position that tells occurrences apart. -/
structure Ident where
  name : String
  pos : Nat := 0
  deriving DecidableEq, Repr

/-- An `*ast.BasicLit`: the literal text as written, quotes included. -/
structure BasicLit where
  value : String
  deriving DecidableEq, Repr

/-- An `*ast.CommentGroup`, kept as the string that `Text()` returns. -/
structure CommentGroup where
  text : String
  deriving DecidableEq, Repr

/-- An `*ast.Field` over expressions of type `E`. -/
structure FieldOf (E : Type) where
  doc : Option CommentGroup := none
  names : List Ident
  type : E
  tag : Option BasicLit := none

/-- The `ast.Expr` forms; the forms the loader never looks into are `other`. -/
inductive Expr where
  | ident (id : Ident)
  | basicLit (lit : BasicLit)
  | selectorExpr (x : Expr) (sel : Ident)
  | arrayType (len : Option Expr) (elt : Expr)
  | compositeLit (typ : Option Expr) (elts : List Expr)
  | keyValueExpr (key : Expr) (value : Expr)
  | structType (fields : List (FieldOf Expr))
  | interfaceType (methods : List (FieldOf Expr))
  | funcType (params : Option (List (FieldOf Expr))) (results : Option (List (FieldOf Expr)))
  | other (descr : String)

abbrev Field := FieldOf Expr

/-- An `*ast.ImportSpec`: optional local name and the quoted path literal. -/
structure ImportSpec where
  name : Option Ident := none
  path : BasicLit
  deriving DecidableEq, Repr

/-- An `*ast.TypeSpec`. -/
structure TypeSpec where
  doc : Option CommentGroup := none
  name : Ident
  type : Expr

/-- An `*ast.ValueSpec`. -/
structure ValueSpec where
  doc : Option CommentGroup := none
  names : List Ident

/-- An `ast.Spec`. -/
inductive Spec where
  | typeSpec (ts : TypeSpec)
  | valueSpec (vs : ValueSpec)
  | importSpec (imp : ImportSpec)

/-- The `token.Token` of a general declaration. -/
inductive Token where
  | TYPE
  | CONST
  | IMPORT
  | VAR
  deriving DecidableEq, Repr

/-- An `*ast.GenDecl`. -/
structure GenDecl where
  doc : Option CommentGroup := none
  tok : Token
  specs : List Spec

/-- An `ast.Decl`: a general declaration, or a function or bad declaration. -/
inductive Decl where
  | genDecl (gd : GenDecl)
  | funcDecl (name : String)
  | badDecl

/-- An `*ast.File`. -/
structure File where
  doc : Option CommentGroup := none
  name : Ident
  decls : List Decl
  imports : List ImportSpec := []

/-! ## Type information (`go/types`, `go/constant`) -/

/-- A `*types.Package`. -/
structure Package where
  path : String
  name : String
  deriving DecidableEq, Repr

/-- A `types.Type`, compared the way Go compares the interface values. -/
inductive GoType where
  | basic (name : String)
  | named (pkgPath : String) (name : String)
  | other (descr : String)
  deriving DecidableEq, Repr

/-- A `constant.Value`. -/
inductive ConstVal where
  | unknown
  | int (v : Int)
  | nonInt (descr : String)
  deriving DecidableEq, Repr

/-- A `types.Object`. -/
inductive Object where
  | pkgName (imported : Package)
  | const (val : ConstVal)
  | other (descr : String)
  deriving DecidableEq, Repr

/-- The `*types.Info` filled in by the type checker. -/
structure Info where
  typeOf : Ident → Option GoType
  defs : Ident → Option Object
  uses : Ident → Option Object

/-- The method `(*types.Info).ObjectOf`. -/
def Info.objectOf (info : Info) (id : Ident) : Option Object :=
  match info.defs id with
  | some obj => some obj
  | none => info.uses id

/-! ## Descriptors (`descriptor.proto`, `annotations.proto`) -/

/-- The enum `FieldDescriptorProto_Type`, an `int32`; zero is no type. -/
abbrev FieldDescriptorProto_Type := Int

def FieldDescriptorProto_TYPE_INT32 : FieldDescriptorProto_Type := 5
def FieldDescriptorProto_TYPE_BOOL : FieldDescriptorProto_Type := 8
def FieldDescriptorProto_TYPE_STRING : FieldDescriptorProto_Type := 9
def FieldDescriptorProto_TYPE_MESSAGE : FieldDescriptorProto_Type := 11
def FieldDescriptorProto_TYPE_ENUM : FieldDescriptorProto_Type := 14

/-- The enum `FieldDescriptorProto_Label`, an `int32`; zero is no label. -/
abbrev FieldDescriptorProto_Label := Int

def FieldDescriptorProto_LABEL_REPEATED : FieldDescriptorProto_Label := 3

structure FieldDescriptorProto where
  name : Option String := none
  number : Option Int := none
  label : Option FieldDescriptorProto_Label := none
  type : Option FieldDescriptorProto_Type := none
  typeName : Option String := none
  deriving DecidableEq, Repr

structure DescriptorProto where
  name : Option String := none
  field : List FieldDescriptorProto := []
  deriving DecidableEq, Repr

structure EnumValueDescriptorProto where
  name : Option String := none
  number : Option Int := none
  deriving DecidableEq, Repr

structure EnumDescriptorProto where
  name : Option String := none
  value : List EnumValueDescriptorProto := []
  deriving DecidableEq, Repr

/-- The oneof `pattern` of `annotations.HttpRule`. -/
inductive HttpRule_Pattern where
  | Get (path : String)
  | Post (path : String)
  deriving DecidableEq, Repr

/-- The message `annotations.HttpRule`. -/
structure HttpRule where
  pattern : Option HttpRule_Pattern := none
  body : String := ""
  deriving DecidableEq, Repr

/-- A `*proto.ExtensionDesc`; the loader knows `annotations.E_Http` only. -/
inductive ExtensionDesc where
  | E_Http
  deriving DecidableEq, Repr

/-- The message `MethodOptions` with the extensions set on it, latest last. -/
structure MethodOptions where
  extensions : List (ExtensionDesc × HttpRule) := []
  deriving DecidableEq, Repr

structure MethodDescriptorProto where
  name : Option String := none
  inputType : Option String := none
  outputType : Option String := none
  options : Option MethodOptions := none
  deriving DecidableEq, Repr

structure ServiceDescriptorProto where
  name : Option String := none
  method : List MethodDescriptorProto := []
  deriving DecidableEq, Repr

structure SourceCodeInfo_Location where
  path : List Int
  leadingComments : Option String
  deriving DecidableEq, Repr

structure SourceCodeInfo where
  location : List SourceCodeInfo_Location := []
  deriving DecidableEq, Repr

structure FileOptions where
  goPackage : Option String := none
  deriving DecidableEq, Repr

structure FileDescriptorProto where
  name : Option String := none
  package : Option String := none
  dependency : List String := []
  messageType : List DescriptorProto := []
  enumType : List EnumDescriptorProto := []
  service : List ServiceDescriptorProto := []
  options : Option FileOptions := none
  sourceCodeInfo : Option SourceCodeInfo := none
  syntax_ : Option String := none
  deriving DecidableEq, Repr

/-- The message `plugin.CodeGeneratorRequest`. -/
structure CodeGeneratorRequest where
  fileToGenerate : List String := []
  parameter : Option String := none
  protoFile : List FileDescriptorProto := []
  deriving DecidableEq, Repr

/-- The file entry of `plugin.CodeGeneratorResponse`. -/
structure CodeGeneratorResponse_File where
  name : String
  content : String
  deriving DecidableEq, Repr

/-! ## The surroundings of `loader.go` -/

/-- A `*packages.Package`, as far as the loader reads it. -/
structure LoadedPackage where
  pkgPath : String
  name : String
  deriving DecidableEq, Repr

/-- Declarations that `loader.go` uses and does not contain: constants and
helpers of the package that live in other files, and the library calls whose
results depend on text outside the tree (`strconv.Unquote`, `types.Eval`,
`parser.ParseExpr`). -/
structure Env where
  packagePath : Int
  messagePath : Int
  messageFieldPath : Int
  enumPath : Int
  enumValuePath : Int
  servicePath : Int
  serviceMethodPath : Int
  /-- Helper `protoNumber(fieldTag *ast.BasicLit) *int32`. -/
  protoNumber : Option BasicLit → Option Int
  /-- Helper `splitGunkTag(text string) (doc, tag string)`. -/
  splitGunkTag : String → String × String
  /-- Helper `namePrefix(name string) func(string) string`. -/
  namePrefix : String → String → String
  /-- Library `strconv.Unquote` with its error dropped, as every caller does. -/
  unquote : String → String
  /-- Library `types.Eval` followed by `tv.Type.String()`. -/
  evalType : Option Package → String → Except String String
  /-- Library `parser.ParseExpr` with its error dropped; nil is `none`. -/
  parseExpr : String → Option Expr

/-- The struct `Loader`.  The pointers `gfile` and `pfile` are held by value:
`translateFile` assigns both before any helper reads them, and the registry
entry it stores is not reached through `pfile` again. -/
structure Loader where
  wd : String := ""
  gfile : File
  pfile : FileDescriptorProto
  tpkg : Option Package
  info : Info
  loadPkgs : GoMap LoadedPackage
  astPkgs : GoMap (GoMap File)
  typePkgs : GoMap Package
  toGen : GoMap (GoMap Bool)
  allProto : GoMap FileDescriptorProto
  origPaths : GoMap String
  msgIndex : Int := 0
  srvIndex : Int := 0
  enumIndex : Int := 0

/-- The entries that `range l.astPkgs[path]` visits: those of the file map of
the package, none when the package is missing (a nil map). -/
def pkgFiles (l : Loader) (path : String) : List (String × File) :=
  match l.astPkgs.lookup path with
  | none => []
  | some m => m.entries

/-! ## Conversions and library calls with a fixed meaning -/

/-- The conversion `int32(v)`: keep the low 32 bits, read as signed. -/
def toInt32 (v : Int) : Int := (v + 2147483648) % 4294967296 - 2147483648

/-- The low 64 bits read as signed, which is what `(*big.Int).Int64` yields. -/
def toInt64 (v : Int) : Int :=
  (v + 9223372036854775808) % 18446744073709551616 - 9223372036854775808

/-- The call `constant.Int64Val(val)` with the exactness flag dropped. -/
def int64Val : ConstVal → Res Int
  | .int v => .ok (toInt64 v)
  | .unknown => .ok 0
  | .nonInt d => .error (.panic (d ++ " not an Int"))

/-- The call `strings.Replace(s, old, new, 1)` on the characters of `s`: the
first occurrence of `old`, if there is one, becomes `new`. -/
def replaceFirstChars (old new : List Char) : List Char → List Char
  | [] => if old = [] then new else []
  | c :: cs =>
    if old.isPrefixOf (c :: cs) then new ++ (c :: cs).drop old.length
    else c :: replaceFirstChars old new cs

/-- The call `strings.Replace(s, old, new, 1)`. -/
def stringsReplace1 (s old new : String) : String :=
  String.mk (replaceFirstChars old.data new.data s.data)

/-- The call `sort.Strings`: ascending in the order of `<` on strings, which
Go takes byte by byte and Lean character by character; on UTF-8 text the two
agree. -/
def sortStrings (xs : List String) : List String :=
  xs.insertionSort (fun a b => a ≤ b)

/-! ## `addDoc` and `addProtoDep` -/

/-- The method `addDoc`. -/
def addDoc (l : Loader) (doc : Option CommentGroup) (f : Option (String → String))
    (path : List Int) : Loader :=
  match doc with
  | none => l
  | some doc =>
    let info : SourceCodeInfo := match l.pfile.sourceCodeInfo with
      | none => {}
      | some sci => sci
    let text := match f with
      | none => doc.text
      | some f => f doc.text
    let loc : SourceCodeInfo_Location := { path := path, leadingComments := some text }
    let info2 : SourceCodeInfo := { location := info.location ++ [loc] }
    { l with pfile := { l.pfile with sourceCodeInfo := some info2 } }

/-- The method `addProtoDep`. -/
def addProtoDep (l : Loader) (protoPath : String) : Loader :=
  if l.pfile.dependency.any (fun dep => dep == protoPath) then l
  else { l with pfile := { l.pfile with dependency := l.pfile.dependency ++ [protoPath] } }

/-! ## `protoType` -/

/-- The innermost loop of `protoType`: the specs of one declaration. -/
def protoTypeSpecs (name : String) : List Spec → Option FieldDescriptorProto_Type
  | [] => none
  | .typeSpec ts :: rest =>
    match ts.type with
    | .structType _ =>
      if ts.name.name = name then some FieldDescriptorProto_TYPE_MESSAGE
      else protoTypeSpecs name rest
    | .ident _ =>
      if ts.name.name = name then some FieldDescriptorProto_TYPE_ENUM
      else protoTypeSpecs name rest
    | _ => protoTypeSpecs name rest
  | _ :: rest => protoTypeSpecs name rest

/-- The middle loop of `protoType`: the declarations of one file. -/
def protoTypeDecls (name : String) : List Decl → Option FieldDescriptorProto_Type
  | [] => none
  | .genDecl gd :: rest =>
    match protoTypeSpecs name gd.specs with
    | some t => some t
    | none => protoTypeDecls name rest
  | _ :: rest => protoTypeDecls name rest

/-- The outer loop of `protoType`: the files of the package. -/
def protoTypeFiles (name : String) : List (String × File) → Option FieldDescriptorProto_Type
  | [] => none
  | (_, p) :: rest =>
    match protoTypeDecls name p.decls with
    | some t => some t
    | none => protoTypeFiles name rest

/-- The opening statement of `protoType`: `if pkg == nil { pkg = l.tpkg }`. -/
def pkgOrCurrent (l : Loader) : Option Package → Option Package
  | none => l.tpkg
  | some p => some p

/-- The `*ast.Ident` case of `protoType`, `pkg` being what the caller passed. -/
def protoTypeIdent (l : Loader) (x : Ident) (pkg : Option Package) :
    Res (FieldDescriptorProto_Type × FieldDescriptorProto_Label × String) :=
  let pkg := pkgOrCurrent l pkg
  if x.name = "string" then .ok (FieldDescriptorProto_TYPE_STRING, 0, x.name)
  else if x.name = "int" ∨ x.name = "int32" then .ok (FieldDescriptorProto_TYPE_INT32, 0, x.name)
  else if x.name = "bool" then .ok (FieldDescriptorProto_TYPE_BOOL, 0, x.name)
  else
    match pkg with
    | none => .error (.panic "nil pointer dereference: (*types.Package).Path")
    | some pkg =>
      let fullName := "." ++ pkg.path ++ "." ++ x.name
      match protoTypeFiles x.name (pkgFiles l pkg.path) with
      | some t => .ok (t, 0, fullName)
      | none => .ok (0, 0, "")

/-- The method `protoType`.  The selector case calls `protoType` on `x.Sel`,
an identifier, with a package that is not nil: that call is the identifier
case, written here as `protoTypeIdent`. -/
def protoType (l : Loader) : Expr → Option Package →
    Res (FieldDescriptorProto_Type × FieldDescriptorProto_Label × String)
  | .ident x, pkg => protoTypeIdent l x pkg
  | .selectorExpr (.ident id) sel, _ =>
    match l.info.objectOf id with
    | some (.pkgName imported) => protoTypeIdent l sel (some imported)
    | _ => .error (.panic "interface conversion: types.Object is not *types.PkgName")
  | .selectorExpr _ _, _ => .ok (0, 0, "")
  | .arrayType (some _) _, _ => .ok (0, 0, "")
  | .arrayType none elt, pkg =>
    match protoType l elt (pkgOrCurrent l pkg) with
    | .error e => .error e
    | .ok (typ, _, name) =>
      if typ = 0 then .ok (0, 0, "")
      else .ok (typ, FieldDescriptorProto_LABEL_REPEATED, name)
  | _, _ => .ok (0, 0, "")

/-! ## `interpretTagValue` -/

/-- One iteration of the loop of `interpretTagValue` over the elements of the
composite literal.  The variable `method` is declared in the loop body, so it
starts as "GET" in every iteration and its assignment under the key `Method`
ends with that iteration. -/
def interpretTagElt (env : Env) (rule : HttpRule) : Expr → Res HttpRule
  | .keyValueExpr key value =>
    match value with
    | .basicLit lit =>
      let val := env.unquote lit.value
      let method := "GET"
      match key with
      | .ident name =>
        if name.name = "Method" then
          let _method := val
          .ok rule
        else if name.name = "Path" then
          if method = "GET" then .ok { rule with pattern := some (.Get val) }
          else if method = "POST" then .ok { rule with pattern := some (.Post val) }
          else .ok rule
        else if name.name = "Body" then .ok { rule with body := val }
        else .ok rule
      | _ => .error (.panic "interface conversion: ast.Expr is not *ast.Ident")
    | _ => .error (.panic "interface conversion: ast.Expr is not *ast.BasicLit")
  | _ => .error (.panic "interface conversion: ast.Expr is not *ast.KeyValueExpr")

/-- The loop of `interpretTagValue` over `expr.(*ast.CompositeLit).Elts`. -/
def interpretTagElts (env : Env) : HttpRule → List Expr → Res HttpRule
  | rule, [] => .ok rule
  | rule, elt :: rest =>
    match interpretTagElt env rule elt with
    | .error e => .error e
    | .ok rule2 => interpretTagElts env rule2 rest

/-- The method `interpretTagValue`. -/
def interpretTagValue (env : Env) (l : Loader) (tag : String) :
    Res (ExtensionDesc × HttpRule) :=
  match env.evalType l.tpkg tag with
  | .error err => .error (.error err)
  | .ok s =>
    if s = "github.com/gunk/opt/http.Match" then
      match env.parseExpr tag with
      | some (.compositeLit _ elts) =>
        match interpretTagElts env {} elts with
        | .error e => .error e
        | .ok rule => .ok (ExtensionDesc.E_Http, rule)
      | _ => .error (.panic "interface conversion: ast.Expr is not *ast.CompositeLit")
    else .error (.error ("unknown option type: " ++ s))

/-! ## `protoParamType` -/

/-- The method `protoParamType`. -/
def protoParamType (l : Loader) (fields : Option (List Field)) : Res (String × Loader) :=
  match fields with
  | none => .ok (".google.protobuf.Empty", addProtoDep l "google/protobuf/empty.proto")
  | some [] => .ok (".google.protobuf.Empty", addProtoDep l "google/protobuf/empty.proto")
  | some (field :: rest) =>
    if (field :: rest).length > 1 then .error (.error "need all methods to have <=1 results")
    else
      match protoType l field.type none with
      | .error e => .error e
      | .ok (_, _, tname) =>
        if tname = "" then .error (.error "could not get type for field")
        else .ok (tname, l)

/-! ## `protoMessage` -/

/-- The loop of `protoMessage` over `stype.Fields.List`, from index `i` on,
`acc` being `msg.Field` so far. -/
def protoMessageFields (env : Env) :
    Loader → Nat → List Field → List FieldDescriptorProto →
      Res (List FieldDescriptorProto × Loader)
  | l, _, [], acc => .ok (acc, l)
  | l, i, field :: rest, acc =>
    match field.names with
    | [name] =>
      let l1 := addDoc l field.doc none
        [env.messagePath, l.msgIndex, env.messageFieldPath, toInt32 i]
      let pfield : FieldDescriptorProto :=
        { name := some name.name, number := env.protoNumber field.tag }
      match protoType l1 field.type none with
      | .error e => .error e
      | .ok (ptype, plabel, tname) =>
        if ptype = 0 then .error (.error "unsupported field type")
        else if ptype = FieldDescriptorProto_TYPE_ENUM ∨
            ptype = FieldDescriptorProto_TYPE_MESSAGE then
          protoMessageFields env l1 (i + 1) rest
            (acc ++ [{ pfield with type := some ptype, typeName := some tname,
                                   label := some plabel }])
        else
          protoMessageFields env l1 (i + 1) rest
            (acc ++ [{ pfield with type := some ptype, label := some plabel }])
    | _ => .error (.error "need all fields to have one name")

/-- The method `protoMessage`. -/
def protoMessage (env : Env) (l : Loader) (tspec : TypeSpec) :
    Res (DescriptorProto × Loader) :=
  let l1 := addDoc l tspec.doc none [env.messagePath, l.msgIndex]
  match tspec.type with
  | .structType fields =>
    match protoMessageFields env l1 0 fields [] with
    | .error e => .error e
    | .ok (fs, l2) =>
      .ok ({ name := some tspec.name.name, field := fs },
           { l2 with msgIndex := toInt32 (l2.msgIndex + 1) })
  | _ => .error (.panic "interface conversion: ast.Expr is not *ast.StructType")

/-! ## `protoService` -/

/-- The loop of `protoService` over `itype.Methods.List`, from index `i` on,
`acc` being `srv.Method` so far.  The closure `fn` handed to `addDoc` stores
the tag half of `splitGunkTag` in `tag`; `addDoc` calls it when the method
has a doc comment, and `tag` stays empty otherwise. -/
def protoServiceMethods (env : Env) :
    Loader → Nat → List Field → List MethodDescriptorProto →
      Res (List MethodDescriptorProto × Loader)
  | l, _, [], acc => .ok (acc, l)
  | l, i, method :: rest, acc =>
    match method.names with
    | [name] =>
      let tag := match method.doc with
        | none => ""
        | some doc => (env.splitGunkTag doc.text).2
      let l1 := addDoc l method.doc (some (fun text => (env.splitGunkTag text).1))
        [env.servicePath, l.srvIndex, env.serviceMethodPath, toInt32 i]
      let pmethod : MethodDescriptorProto := { name := some name.name }
      match method.type with
      | .funcType params results =>
        match protoParamType l1 params with
        | .error e => .error e
        | .ok (inputType, l2) =>
          match protoParamType l2 results with
          | .error e => .error e
          | .ok (outputType, l3) =>
            let pmethod := { pmethod with inputType := some inputType,
                                          outputType := some outputType }
            if tag ≠ "" then
              match interpretTagValue env l3 tag with
              | .error e => .error e
              | .ok (edesc, val) =>
                let opts : MethodOptions := match pmethod.options with
                  | none => {}
                  | some o => o
                let opts2 : MethodOptions := { extensions := opts.extensions ++ [(edesc, val)] }
                protoServiceMethods env l3 (i + 1) rest
                  (acc ++ [{ pmethod with options := some opts2 }])
            else
              protoServiceMethods env l3 (i + 1) rest (acc ++ [pmethod])
      | _ => .error (.panic "interface conversion: ast.Expr is not *ast.FuncType")
    | _ => .error (.error "need all methods to have one name")

/-- The method `protoService`. -/
def protoService (env : Env) (l : Loader) (tspec : TypeSpec) :
    Res (ServiceDescriptorProto × Loader) :=
  match tspec.type with
  | .interfaceType methods =>
    match protoServiceMethods env l 0 methods [] with
    | .error e => .error e
    | .ok (ms, l2) =>
      .ok ({ name := some tspec.name.name, method := ms },
           { l2 with srvIndex := toInt32 (l2.srvIndex + 1) })
  | _ => .error (.panic "interface conversion: ast.Expr is not *ast.InterfaceType")

/-! ## `protoEnum` -/

/-- The inner loop of `protoEnum` over the specs of one constant declaration,
from index `i` on, `acc` being `enum.Value` so far. -/
def protoEnumSpecs (env : Env) (tspec : TypeSpec) (enumType : Option GoType) :
    Loader → Nat → List Spec → List EnumValueDescriptorProto →
      Res (List EnumValueDescriptorProto × Loader)
  | l, _, [], acc => .ok (acc, l)
  | l, i, .valueSpec vs :: rest, acc =>
    match vs.names with
    | [name] =>
      if l.info.typeOf name ≠ enumType then protoEnumSpecs env tspec enumType l (i + 1) rest acc
      else
        let l1 := addDoc l vs.doc (some (env.namePrefix tspec.name.name))
          [env.enumPath, l.enumIndex, env.enumValuePath, toInt32 i]
        match l.info.defs name with
        | some (.const val) =>
          match int64Val val with
          | .error e => .error e
          | .ok ival =>
            protoEnumSpecs env tspec enumType l1 (i + 1) rest
              (acc ++ [{ name := some name.name, number := some (toInt32 ival) }])
        | _ => .error (.panic "interface conversion: types.Object is not *types.Const")
    | _ => .error (.error "need all value specs to define one name")
  | _, _, _ :: _, _ => .error (.panic "interface conversion: ast.Spec is not *ast.ValueSpec")

/-- The outer loop of `protoEnum` over `l.gfile.Decls`. -/
def protoEnumDecls (env : Env) (tspec : TypeSpec) (enumType : Option GoType) :
    Loader → List Decl → List EnumValueDescriptorProto →
      Res (List EnumValueDescriptorProto × Loader)
  | l, [], acc => .ok (acc, l)
  | l, .genDecl gd :: rest, acc =>
    if gd.tok ≠ Token.CONST then protoEnumDecls env tspec enumType l rest acc
    else
      match protoEnumSpecs env tspec enumType l 0 gd.specs acc with
      | .error e => .error e
      | .ok (acc2, l2) => protoEnumDecls env tspec enumType l2 rest acc2
  | l, _ :: rest, acc => protoEnumDecls env tspec enumType l rest acc

/-- The method `protoEnum`. -/
def protoEnum (env : Env) (l : Loader) (tspec : TypeSpec) :
    Res (EnumDescriptorProto × Loader) :=
  let l1 := addDoc l tspec.doc none [env.enumPath, l.enumIndex]
  let enumType := l1.info.typeOf tspec.name
  match protoEnumDecls env tspec enumType l1 l1.gfile.decls [] with
  | .error e => .error e
  | .ok (vs, l2) =>
    .ok ({ name := some tspec.name.name, value := vs },
         { l2 with enumIndex := toInt32 (l2.enumIndex + 1) })

/-! ## `translateDecl`, `translateFile`, `translatePkg` -/

/-- The loop of `translateDecl` over `gd.Specs`.  The assignment
`ts.Doc = gd.Doc` is made on the copy handed to the helpers: no other code
reads the doc comment of a type spec. -/
def translateSpecs (env : Env) (gd : GenDecl) : Loader → List Spec → Res Loader
  | l, [] => .ok l
  | l, .typeSpec ts0 :: rest =>
    let ts : TypeSpec := match ts0.doc with
      | none => { ts0 with doc := gd.doc }
      | some _ => ts0
    match ts.type with
    | .structType _ =>
      match protoMessage env l ts with
      | .error e => .error e
      | .ok (msg, l2) =>
        translateSpecs env gd
          { l2 with pfile := { l2.pfile with messageType := l2.pfile.messageType ++ [msg] } } rest
    | .interfaceType _ =>
      match protoService env l ts with
      | .error e => .error e
      | .ok (srv, l2) =>
        translateSpecs env gd
          { l2 with pfile := { l2.pfile with service := l2.pfile.service ++ [srv] } } rest
    | .ident _ =>
      match protoEnum env l ts with
      | .error e => .error e
      | .ok (enum, l2) =>
        translateSpecs env gd
          { l2 with pfile := { l2.pfile with enumType := l2.pfile.enumType ++ [enum] } } rest
    | _ => .error (.error "invalid declaration type")
  | _, _ :: _ => .error (.panic "interface conversion: ast.Spec is not *ast.TypeSpec")

/-- The method `translateDecl`. -/
def translateDecl (env : Env) (l : Loader) : Decl → Res Loader
  | .genDecl gd =>
    match gd.tok with
    | .TYPE => translateSpecs env gd l gd.specs
    | .CONST => .ok l
    | .IMPORT => .ok l
    | _ => .error (.error "invalid declaration token")
  | _ => .error (.error "invalid declaration")

/-- The loop of `translateFile` over `l.gfile.Decls`. -/
def translateDecls (env : Env) : Loader → List Decl → Res Loader
  | l, [] => .ok l
  | l, decl :: rest =>
    match translateDecl env l decl with
    | .error e => .error e
    | .ok l2 => translateDecls env l2 rest

/-- The method `translateFile`. -/
def translateFile (env : Env) (l : Loader) (path file : String) : Res Loader :=
  let l := { l with msgIndex := 0, srvIndex := 0, enumIndex := 0 }
  match l.toGen.lookup path with
  | none => .error (.panic "assignment to entry in nil map")
  | some files =>
    let l := { l with toGen := l.toGen.set path (files.set file true) }
    match l.allProto.lookup file with
    | some _ => .ok l
    | none =>
      let astFiles : GoMap File := match l.astPkgs.lookup path with
        | none => GoMap.empty
        | some m => m
      match l.loadPkgs.lookup path, astFiles.lookup file with
      | some lpkg, some gfile =>
        let pfile : FileDescriptorProto :=
          { syntax_ := some "proto3", name := some file, package := some lpkg.pkgPath,
            options := some { goPackage := some lpkg.name } }
        let l := { l with gfile := gfile, pfile := pfile }
        let l := addDoc l l.gfile.doc none [env.packagePath]
        match translateDecls env l l.gfile.decls with
        | .error e => .error e
        | .ok l2 => .ok { l2 with allProto := l2.allProto.set file l2.pfile }
      | _, _ => .error (.panic "nil pointer dereference")

/-- The first loop of `translatePkg`: `translateFile` on every file name. -/
def translateFiles (env : Env) (path : String) : Loader → List String → Res Loader
  | l, [] => .ok l
  | l, file :: rest =>
    match translateFile env l path file with
    | .error e => .error e
    | .ok l2 => translateFiles env path l2 rest

/-- The test `imp.Name != nil && imp.Name.Name == "_"`. -/
def ImportSpec.isBlank (imp : ImportSpec) : Bool :=
  match imp.name with
  | none => false
  | some n => n.name == "_"

/-- The names that the second loop of `translatePkg` appends for one import
list: for every import not named `_`, the file names of the imported package. -/
def importDeps (env : Env) (l : Loader) : List ImportSpec → List String
  | [] => []
  | imp :: rest =>
    if imp.isBlank then importDeps env l rest
    else
      (pkgFiles l (env.unquote imp.path.value)).map Prod.fst ++ importDeps env l rest

/-- The names that the second loop of `translatePkg` appends to the descriptor
of the file `name`: the other files of the package, then the imported ones. -/
def pkgDeps (env : Env) (l : Loader) (astFiles : List (String × File)) (name : String)
    (gfile : File) : List String :=
  (astFiles.map Prod.fst).filter (fun oname => name != oname) ++ importDeps env l gfile.imports

/-- The second loop of `translatePkg`, over the entries of `astFiles`.  The
descriptor `l.allProto[name]` is a pointer; it is dereferenced when the first
name is appended. -/
def translatePkgDeps (env : Env) (astFiles : List (String × File)) :
    Loader → List (String × File) → Res Loader
  | l, [] => .ok l
  | l, (name, gfile) :: rest =>
    let deps := pkgDeps env l astFiles name gfile
    match l.allProto.lookup name with
    | some pfile =>
      let pfile2 : FileDescriptorProto := { pfile with dependency := pfile.dependency ++ deps }
      translatePkgDeps env astFiles { l with allProto := l.allProto.set name pfile2 } rest
    | none =>
      if deps = [] then translatePkgDeps env astFiles l rest
      else .error (.panic "nil pointer dereference")

/-- The method `translatePkg`. -/
def translatePkg (env : Env) (l : Loader) (path : String) : Res Loader :=
  let l := { l with tpkg := l.typePkgs.lookup path }
  let astFiles : List (String × File) := pkgFiles l path
  match translateFiles env path l (astFiles.map Prod.fst) with
  | .error e => .error e
  | .ok l2 => translatePkgDeps env astFiles l2 astFiles

/-! ## `requestForPkg`, `GeneratePkg` -/

/-- The method `requestForPkg`. -/
def requestForPkg (l : Loader) (path : String) : CodeGeneratorRequest :=
  let files : List String := match l.toGen.lookup path with
    | none => []
    | some m => m.keys
  { parameter := some "plugins=grpc",
    fileToGenerate := sortStrings files,
    protoFile := l.allProto.values }

/-- The path that the loop of `GeneratePkg` hands to `ioutil.WriteFile` for a
returned file named `rfName`. -/
def generatedPath (l : Loader) (rfName : String) : String :=
  let inPath := stringsReplace1 rfName ".pb.go" ""
  let outPath := match l.origPaths.lookup inPath with
    | none => ""
    | some p => p
  stringsReplace1 outPath ".gunk" ".pb.go"

/-- The loop of `GeneratePkg` over `resp.File`: the files written so far are
`acc`; `writeFile` is `ioutil.WriteFile` with mode 0644. -/
def generateFiles (l : Loader) (writeFile : String → String → Option String) :
    List CodeGeneratorResponse_File → List (String × String) → Res (List (String × String))
  | [], acc => .ok acc
  | rf :: rest, acc =>
    let outPath := generatedPath l rf.name
    match writeFile outPath rf.content with
    | some err => .error (.error err)
    | none => generateFiles l writeFile rest (acc ++ [(outPath, rf.content)])

/-- The method `GeneratePkg`: `runGenerator` marshals the request, runs
`protoc-gen-go` on it and unmarshals the response.  The result lists the
files written, with their content. -/
def GeneratePkg (l : Loader)
    (runGenerator : CodeGeneratorRequest → Except String (List CodeGeneratorResponse_File))
    (writeFile : String → String → Option String) (path : String) :
    Res (List (String × String)) :=
  match runGenerator (requestForPkg l path) with
  | .error err => .error (.error err)
  | .ok files => generateFiles l writeFile files []

/-! ## Predicates on the declarations of a package -/

/-- The specs of a declaration, none for a declaration that is not general. -/
def Decl.specs : Decl → List Spec
  | .genDecl gd => gd.specs
  | _ => []

/-- The spec declares a type `name` whose right-hand side is a struct type. -/
def Spec.isStructNamed (name : String) : Spec → Bool
  | .typeSpec ts =>
    match ts.type with
    | .structType _ => ts.name.name == name
    | _ => false
  | _ => false

/-- The spec declares a type `name` whose right-hand side is an identifier. -/
def Spec.isIdentNamed (name : String) : Spec → Bool
  | .typeSpec ts =>
    match ts.type with
    | .ident _ => ts.name.name == name
    | _ => false
  | _ => false

/-- The predeclared integer types of Go. -/
def integerBaseTypes : List String :=
  ["int", "int8", "int16", "int32", "int64", "uint", "uint8", "uint16", "uint32", "uint64",
   "uintptr", "byte", "rune"]

/-- The spec declares a type `name` whose right-hand side is an identifier
naming an integer base type: the enum form in the words of the data model. -/
def Spec.isNamedInteger (name : String) : Spec → Bool
  | .typeSpec ts =>
    match ts.type with
    | .ident base => ts.name.name == name && integerBaseTypes.contains base.name
    | _ => false
  | _ => false

/-- Some spec of some general declaration of some file satisfies `q`. -/
def anySpec (q : Spec → Bool) (files : List (String × File)) : Bool :=
  files.any (fun f => f.2.decls.any (fun d => d.specs.any q))

/-- The result that the type mapping of the specification prescribes for an
identifier `x` that is not a scalar name, in the package `p` with the files
`files`: message for a struct type, enum for a named-integer type, failure
otherwise. -/
def specNamedTypeResult (files : List (String × File)) (p x : String) :
    FieldDescriptorProto_Type × FieldDescriptorProto_Label × String :=
  if anySpec (Spec.isStructNamed x) files then
    (FieldDescriptorProto_TYPE_MESSAGE, 0, "." ++ p ++ "." ++ x)
  else if anySpec (Spec.isNamedInteger x) files then
    (FieldDescriptorProto_TYPE_ENUM, 0, "." ++ p ++ "." ++ x)
  else (0, 0, "")

/-- Every package qualifier that `protoType` looks up in the expression is
bound to a package name, as the type checker leaves it for a type. -/
def Expr.qualifiersResolved (info : Info) : Expr → Bool
  | .selectorExpr (.ident id) _ =>
    match info.objectOf id with
    | some (.pkgName _) => true
    | _ => false
  | .arrayType none elt => elt.qualifiersResolved info
  | _ => true

/-- The names that a spec of a constant declaration defines. -/
def Spec.constNames : Spec → List Ident
  | .valueSpec vs => vs.names
  | _ => []

/-- The names that a declaration defines as constants, in source order. -/
def Decl.constNames : Decl → List Ident
  | .genDecl gd => if gd.tok = Token.CONST then gd.specs.flatMap Spec.constNames else []
  | _ => []

/-- The constants of the file whose resolved type is `t`, in source order. -/
def fileConstsOfType (info : Info) (file : File) (t : Option GoType) : List Ident :=
  (file.decls.flatMap Decl.constNames).filter (fun n => decide (info.typeOf n = t))

/-- The compile-time integer value of the constant that `n` defines; an
unknown value counts as 0, as `constant.Int64Val` has it. -/
def constIntValue (info : Info) (n : Ident) : Option Int :=
  match info.defs n with
  | some (.const (.int v)) => some v
  | some (.const .unknown) => some 0
  | _ => none

/-- The second loader differs from the first in the descriptor being filled
and in the per-file indices at most. -/
def Loader.sameTables (l l2 : Loader) : Prop :=
  l2.tpkg = l.tpkg ∧ l2.info = l.info ∧ l2.gfile = l.gfile ∧ l2.loadPkgs = l.loadPkgs ∧
    l2.astPkgs = l.astPkgs ∧ l2.typePkgs = l.typePkgs ∧ l2.toGen = l.toGen ∧
    l2.allProto = l.allProto ∧ l2.origPaths = l.origPaths

/-- The method `(*ast.FieldList).NumFields` of `go/ast`: the number of
parameters (or results) that the list declares, a field without a name
counting once and a field with several names once per name. -/
def numFields : Option (List Field) → Nat
  | none => 0
  | some fs => (fs.map (fun f => if f.names.length = 0 then 1 else f.names.length)).sum

/-- The expression `len(fields.List)` that `protoParamType` tests, 0 for a
nil list. -/
def fieldCount : Option (List Field) → Nat
  | none => 0
  | some fs => fs.length

/-- The right-hand sides of a type declaration that `translateDecl` has a
case for: a struct type, an interface type, an identifier. -/
def Expr.isDeclForm : Expr → Bool
  | .structType _ => true
  | .interfaceType _ => true
  | .ident _ => true
  | _ => false

/-- The right-hand sides of a type declaration that the data model accepts: a
struct type, an interface type, an identifier naming an integer base type. -/
def Expr.isSpecDeclForm : Expr → Bool
  | .structType _ => true
  | .interfaceType _ => true
  | .ident base => integerBaseTypes.contains base.name
  | _ => false

/-- The element of a composite literal has the form `Key: "literal"`: a
key-value pair whose key is an identifier and whose value is a basic
literal. -/
def Expr.isKeyedLiteral : Expr → Bool
  | .keyValueExpr (.ident _) (.basicLit _) => true
  | _ => false

/-! ## Sample inputs -/

/-- A stand-in for `strconv.Unquote` that drops the first and the last
character: what the library returns for a quoted literal without escapes. -/
def sampleUnquote (s : String) : String := String.mk (s.data.drop 1).dropLast

/-- The tag of scenario 5, parsed:
`http.Match{Method: "POST", Path: "/ping", Body: "*"}`. -/
def samplePostTag : Expr :=
  .compositeLit (some (.selectorExpr (.ident { name := "http" }) { name := "Match" }))
    [ .keyValueExpr (.ident { name := "Method" }) (.basicLit { value := "\"POST\"" }),
      .keyValueExpr (.ident { name := "Path" }) (.basicLit { value := "\"/ping\"" }),
      .keyValueExpr (.ident { name := "Body" }) (.basicLit { value := "\"*\"" }) ]

/-- The text of the tag of scenario 5. -/
def samplePostTagText : String :=
  "http.Match\x7bMethod: \"POST\", Path: \"/ping\", Body: \"*\"\x7d"

/-- The tag `http.Match{Path: "/ping", Body: "*"}`, parsed. -/
def samplePathTag : Expr :=
  .compositeLit (some (.selectorExpr (.ident { name := "http" }) { name := "Match" }))
    [ .keyValueExpr (.ident { name := "Path" }) (.basicLit { value := "\"/ping\"" }),
      .keyValueExpr (.ident { name := "Body" }) (.basicLit { value := "\"*\"" }) ]

/-- The text of `samplePathTag`. -/
def samplePathTagText : String :=
  "http.Match\x7bPath: \"/ping\", Body: \"*\"\x7d"

/-- An environment with the path constants of `descriptor.proto`, in which
every tag has the type `http.Match` and parses to `samplePostTag`, except
the text of `samplePathTag`. -/
def sampleEnv : Env where
  packagePath := 2
  messagePath := 4
  messageFieldPath := 2
  enumPath := 5
  enumValuePath := 2
  servicePath := 6
  serviceMethodPath := 2
  protoNumber := fun tag => match tag with
    | none => none
    | some lit =>
      if lit.value = "`pb:\"1\"`" then some 1
      else if lit.value = "`pb:\"2\"`" then some 2
      else some 0
  splitGunkTag := fun text => (text, "")
  namePrefix := fun name text => name ++ "_" ++ text
  unquote := sampleUnquote
  evalType := fun _ _ => .ok "github.com/gunk/opt/http.Match"
  parseExpr := fun tag => if tag = samplePathTagText then some samplePathTag
                          else some samplePostTag

/-- A loader with no package added, about to fill the descriptor of a file. -/
def sampleLoader : Loader where
  gfile := { name := { name := "svc" }, decls := [] }
  pfile := { name := some "svc/a.gunk" }
  tpkg := some { path := "svc", name := "svc" }
  info := { typeOf := fun _ => none, defs := fun _ => none, uses := fun _ => none }
  loadPkgs := GoMap.empty
  astPkgs := GoMap.empty
  typePkgs := GoMap.empty
  toGen := GoMap.empty
  allProto := GoMap.empty
  origPaths := GoMap.empty

/-- The file `type S string` of package `p`. -/
def stringTypeFile : File :=
  { name := { name := "p" },
    decls := [.genDecl { tok := .TYPE, specs :=
      [.typeSpec { name := { name := "S" }, type := .ident { name := "string" } }] }] }

/-- A loader that holds the package `p` made of `stringTypeFile`. -/
def stringTypeLoader : Loader :=
  { sampleLoader with
    tpkg := some { path := "p", name := "p" },
    info := { typeOf := fun _ => none, defs := fun _ => none,
              uses := fun id => if id.name = "p" then some (.pkgName { path := "p", name := "p" })
                                else none },
    astPkgs := ⟨[("p", ⟨[("p/a.gunk", stringTypeFile)], by decide⟩)], by decide⟩ }

/-- The struct `type M struct { X int; A [4]int }`, `X` and `A` untagged. -/
def fixedArraySpec : TypeSpec :=
  { name := { name := "M" },
    type := .structType
      [ { names := [{ name := "X" }], type := .ident { name := "int" } },
        { names := [{ name := "A" }],
          type := .arrayType (some (.basicLit { value := "4" })) (.ident { name := "int" }) } ] }

/-- The struct of scenario 2: `type M struct { X int }`, `X` tagged `pb:"1"`. -/
def intFieldSpec : TypeSpec :=
  { name := { name := "M" },
    type := .structType
      [ { names := [{ name := "X" }], type := .ident { name := "int" },
          tag := some { value := "`pb:\"1\"`" } } ] }

/-- The type declaration `type Color int`. -/
def colorSpec : TypeSpec :=
  { name := { name := "Color" }, type := .ident { name := "int" } }

/-- The file of scenario 4: `type Color int` and the constants `Red`, `Green`,
`Blue`, one value spec each. -/
def colorFile : File :=
  { name := { name := "p" },
    decls :=
      [ .genDecl { tok := .TYPE, specs := [.typeSpec colorSpec] },
        .genDecl { tok := .CONST, specs :=
          [ .valueSpec { names := [{ name := "Red" }] },
            .valueSpec { names := [{ name := "Green" }] },
            .valueSpec { names := [{ name := "Blue" }] } ] } ] }

/-- The file `type Color int; const Big Color = 1 << 32`. -/
def bigColorFile : File :=
  { name := { name := "p" },
    decls :=
      [ .genDecl { tok := .TYPE, specs := [.typeSpec colorSpec] },
        .genDecl { tok := .CONST, specs := [ .valueSpec { names := [{ name := "Big" }] } ] } ] }

/-- Type information for `colorFile` and `bigColorFile`: every name has the
type `p.Color`; `Red`, `Green`, `Blue` are 0, 1, 2 and `Big` is 4294967296. -/
def colorInfo : Info :=
  { typeOf := fun _ => some (.named "p" "Color"),
    defs := fun n =>
      if n.name = "Red" then some (.const (.int 0))
      else if n.name = "Green" then some (.const (.int 1))
      else if n.name = "Blue" then some (.const (.int 2))
      else if n.name = "Big" then some (.const (.int 4294967296))
      else none,
    uses := fun _ => none }

/-- A loader translating `colorFile`. -/
def colorLoader : Loader :=
  { sampleLoader with gfile := colorFile, info := colorInfo,
                      tpkg := some { path := "p", name := "p" } }

/-- A loader translating `bigColorFile`. -/
def bigColorLoader : Loader :=
  { sampleLoader with gfile := bigColorFile, info := colorInfo,
                      tpkg := some { path := "p", name := "p" } }

/-- File `a.gunk` of package `p`: it imports `q`, imports `r` under the
blank name, and declares the message of scenario 2. -/
def fileA : File :=
  { name := { name := "p" },
    imports := [ { path := { value := "\"q\"" } },
                 { name := some { name := "_" }, path := { value := "\"r\"" } } ],
    decls :=
      [ .genDecl { tok := .IMPORT, specs :=
          [ .importSpec { path := { value := "\"q\"" } },
            .importSpec { name := some { name := "_" }, path := { value := "\"r\"" } } ] },
        .genDecl { tok := .TYPE, specs := [.typeSpec intFieldSpec] } ] }

/-- File `b.gunk` of package `p`, and the only file of `q` and of `r`: no
declarations. -/
def fileB : File := { name := { name := "p" }, decls := [] }

/-- A loader after `addPkg` of the package `p` with the files `p/a.gunk` and
`p/b.gunk`; the packages `q` and `r` that `p` imports are loaded as well. -/
def twoFileLoader : Loader :=
  { sampleLoader with
    tpkg := none,
    loadPkgs := ⟨[("p", { pkgPath := "p", name := "p" })], by decide⟩,
    typePkgs := ⟨[("p", { path := "p", name := "p" })], by decide⟩,
    astPkgs := ⟨[ ("p", ⟨[("p/a.gunk", fileA), ("p/b.gunk", fileB)], by decide⟩),
                  ("q", ⟨[("q/q.gunk", fileB)], by decide⟩),
                  ("r", ⟨[("r/r.gunk", fileB)], by decide⟩) ], by decide⟩,
    toGen := ⟨[("p", GoMap.empty)], by decide⟩ }

/-- A loader that has read `foo.gunk` of package `p` from a directory below
`/home/u/proj.gunk`. -/
def gunkDirLoader : Loader :=
  { sampleLoader with
    origPaths := ⟨[("p/foo.gunk", "/home/u/proj.gunk/api/foo.gunk")], by decide⟩ }

/-- A loader that has read `foo.gunk` of package `p` from `/home/u/api`. -/
def plainDirLoader : Loader :=
  { sampleLoader with
    origPaths := ⟨[("p/foo.gunk", "/home/u/api/foo.gunk")], by decide⟩ }

/-- The file of package `p` that declares `type Req struct{}` and
`type Resp struct{}`. -/
def reqRespFile : File :=
  { name := { name := "p" },
    decls := [.genDecl { tok := .TYPE, specs :=
      [ .typeSpec { name := { name := "Req" }, type := .structType [] },
        .typeSpec { name := { name := "Resp" }, type := .structType [] } ] }] }

/-- A loader translating `reqRespFile`, the only file of package `p`. -/
def reqRespLoader : Loader :=
  { sampleLoader with
    gfile := reqRespFile,
    tpkg := some { path := "p", name := "p" },
    astPkgs := ⟨[("p", ⟨[("p/a.gunk", reqRespFile)], by decide⟩)], by decide⟩ }

/-- The parameter list `(a, b Req)`: one field with two names. -/
def groupedParams : Option (List Field) :=
  some [{ names := [{ name := "a" }, { name := "b" }], type := .ident { name := "Req" } }]

/-- The result list `(x, y Resp)`: one field with two names. -/
def groupedResults : Option (List Field) :=
  some [{ names := [{ name := "x" }, { name := "y" }], type := .ident { name := "Resp" } }]

/-- The declaration `type S interface { Ping(a, b Req) (x, y Resp) }`. -/
def groupedParamsSpec : TypeSpec :=
  { name := { name := "S" },
    type := .interfaceType
      [{ names := [{ name := "Ping" }], type := .funcType groupedParams groupedResults }] }

/-- The declaration `type S string`. -/
def stringTypeDecl : Decl :=
  .genDecl { tok := .TYPE, specs :=
    [.typeSpec { name := { name := "S" }, type := .ident { name := "string" } }] }

/-- The declaration `type T map[string]int`. -/
def mapTypeDecl : GenDecl :=
  { tok := .TYPE, specs :=
    [.typeSpec { name := { name := "T" }, type := .other "map[string]int" }] }

/-- The text of the tag `http.Match{"POST", "/ping", "*"}`, with positional
fields. -/
def positionalTagText : String :=
  "http.Match\x7b\"POST\", \"/ping\", \"*\"\x7d"

/-- The tag of `positionalTagText`, parsed. -/
def positionalTag : Expr :=
  .compositeLit (some (.selectorExpr (.ident { name := "http" }) { name := "Match" }))
    [ .basicLit { value := "\"POST\"" }, .basicLit { value := "\"/ping\"" },
      .basicLit { value := "\"*\"" } ]

/-- The text of the tag `http.Match{Path: "/a" + "/b"}`, whose field value is
a constant expression. -/
def concatTagText : String :=
  "http.Match\x7bPath: \"/a\" + \"/b\"\x7d"

/-- The tag of `concatTagText`, parsed; the value is a binary expression. -/
def concatTag : Expr :=
  .compositeLit (some (.selectorExpr (.ident { name := "http" }) { name := "Match" }))
    [ .keyValueExpr (.ident { name := "Path" }) (.other "BinaryExpr") ]

/-- The text of the tag `(http.Match{Path: "/ping"})`, a parenthesized
expression. -/
def parenTagText : String :=
  "(http.Match\x7bPath: \"/ping\"\x7d)"

/-- The tag of `parenTagText`, parsed. -/
def parenTag : Expr := .other "ParenExpr"

/-- The environment `sampleEnv`, which in addition parses the three tags
above. -/
def assertEnv : Env :=
  { sampleEnv with
    parseExpr := fun tag =>
      if tag = positionalTagText then some positionalTag
      else if tag = concatTagText then some concatTag
      else if tag = parenTagText then some parenTag
      else sampleEnv.parseExpr tag }

/-- The file `type S string; const A S = "a"` of package `p`. -/
def stringConstFile : File :=
  { name := { name := "p" },
    decls :=
      [ stringTypeDecl,
        .genDecl { tok := .CONST, specs := [ .valueSpec { names := [{ name := "A" }] } ] } ] }

/-- A loader translating `stringConstFile`: `S` and `A` have the type `p.S`
and `A` is the string constant "a". -/
def stringConstLoader : Loader :=
  { sampleLoader with
    gfile := stringConstFile,
    tpkg := some { path := "p", name := "p" },
    info := { typeOf := fun _ => some (.named "p" "S"),
              defs := fun n => if n.name = "A" then some (.const (.nonInt "\"a\"")) else none,
              uses := fun _ => none },
    astPkgs := ⟨[("p", ⟨[("p/a.gunk", stringConstFile)], by decide⟩)], by decide⟩ }

/-! ## Lemmas on `addDoc` and `addProtoDep` -/

theorem addDoc_dependency (l : Loader) (doc : Option CommentGroup)
    (f : Option (String → String)) (path : List Int) :
    (addDoc l doc f path).pfile.dependency = l.pfile.dependency := by
  cases doc <;> rfl

theorem addProtoDep_mem (l : Loader) (protoPath : String) :
    protoPath ∈ (addProtoDep l protoPath).pfile.dependency := by
  unfold addProtoDep
  split
  · rename_i h
    obtain ⟨d, hd, hdp⟩ := List.any_eq_true.mp h
    have : d = protoPath := by simpa using hdp
    exact this ▸ hd
  · simp

theorem addProtoDep_mono (l : Loader) (protoPath dep : String)
    (h : dep ∈ l.pfile.dependency) : dep ∈ (addProtoDep l protoPath).pfile.dependency := by
  unfold addProtoDep
  split
  · exact h
  · simp [h]

/-! ## C1: the HTTP rule built by `interpretTagValue` -/

/-- Every iteration of the loop leaves the rule without a Post pattern if it
had none before. -/
theorem interpretTagElt_no_post (env : Env) (rule rule2 : HttpRule) (elt : Expr)
    (h : interpretTagElt env rule elt = .ok rule2)
    (hr : ∀ p, rule.pattern ≠ some (.Post p)) : ∀ p, rule2.pattern ≠ some (.Post p) := by
  unfold interpretTagElt at h
  split at h
  · split at h
    · split at h
      · revert h
        simp only []
        intro h
        split at h
        · cases h; exact hr
        · split at h
          · simp at h
            cases h; intro p; simp
          · split at h
            · cases h; exact hr
            · cases h; exact hr
      · cases h
    · cases h
  · cases h

theorem interpretTagElts_no_post (env : Env) (elts : List Expr) :
    ∀ (rule rule2 : HttpRule), interpretTagElts env rule elts = .ok rule2 →
      (∀ p, rule.pattern ≠ some (.Post p)) → ∀ p, rule2.pattern ≠ some (.Post p) := by
  induction elts with
  | nil =>
    intro rule rule2 h hr
    simp [interpretTagElts] at h
    cases h; exact hr
  | cons elt rest ih =>
    intro rule rule2 h hr
    simp only [interpretTagElts] at h
    split at h
    · cases h
    · rename_i r hr2
      exact ih r rule2 h (interpretTagElt_no_post env rule r elt hr2 hr)

/-- C1 as the code behaves: for a tag of the HTTP option type whose literal
gives Method "POST", then Path, then Body, `interpretTagValue` returns the
rule with the Get pattern (not Post) holding the path, and the body; for a
literal without the Method key it returns the Get pattern holding the path as
well. -/
theorem interpretTagValue_post_gives_get (env : Env) (l : Loader) (tag tag2 : String)
    (typ typ2 : Option Expr) (pathLit bodyLit : BasicLit)
    (hty : env.evalType l.tpkg tag = .ok "github.com/gunk/opt/http.Match")
    (hparse : env.parseExpr tag = some (.compositeLit typ
      [ .keyValueExpr (.ident { name := "Method" }) (.basicLit { value := "\"POST\"" }),
        .keyValueExpr (.ident { name := "Path" }) (.basicLit pathLit),
        .keyValueExpr (.ident { name := "Body" }) (.basicLit bodyLit) ]))
    (hty2 : env.evalType l.tpkg tag2 = .ok "github.com/gunk/opt/http.Match")
    (hparse2 : env.parseExpr tag2 = some (.compositeLit typ2
      [ .keyValueExpr (.ident { name := "Path" }) (.basicLit pathLit),
        .keyValueExpr (.ident { name := "Body" }) (.basicLit bodyLit) ])) :
    interpretTagValue env l tag = .ok (ExtensionDesc.E_Http,
      { pattern := some (.Get (env.unquote pathLit.value)),
        body := env.unquote bodyLit.value }) ∧
    interpretTagValue env l tag2 = .ok (ExtensionDesc.E_Http,
      { pattern := some (.Get (env.unquote pathLit.value)),
        body := env.unquote bodyLit.value }) := by
  constructor
  · simp [interpretTagValue, hty, hparse, interpretTagElts, interpretTagElt]
  · simp [interpretTagValue, hty2, hparse2, interpretTagElts, interpretTagElt]

theorem interpretTagValue_post_gives_get_witness :
    interpretTagValue sampleEnv sampleLoader samplePostTagText
      = .ok (ExtensionDesc.E_Http, { pattern := some (.Get "/ping"), body := "*" }) ∧
    interpretTagValue sampleEnv sampleLoader samplePathTagText
      = .ok (ExtensionDesc.E_Http, { pattern := some (.Get "/ping"), body := "*" }) :=
  interpretTagValue_post_gives_get sampleEnv sampleLoader samplePostTagText samplePathTagText
    (some (.selectorExpr (.ident { name := "http" }) { name := "Match" }))
    (some (.selectorExpr (.ident { name := "http" }) { name := "Match" }))
    { value := "\"/ping\"" } { value := "\"*\"" } rfl rfl rfl rfl

/-- No tag makes `interpretTagValue` return a rule with the Post pattern. -/
theorem interpretTagValue_never_post (env : Env) (l : Loader) (tag : String)
    (edesc : ExtensionDesc) (rule : HttpRule)
    (h : interpretTagValue env l tag = .ok (edesc, rule)) (p : String) :
    rule.pattern ≠ some (.Post p) := by
  unfold interpretTagValue at h
  split at h
  · cases h
  · split at h
    · split at h
      · split at h
        · cases h
        · rename_i r hr
          cases h
          exact interpretTagElts_no_post env _ _ _ hr (by intro p; simp) p
      · cases h
    · cases h

/-! ## C2: methods without parameters or results -/

theorem protoParamType_empty (l : Loader) (fields : Option (List Field))
    (h : fields = none ∨ fields = some []) :
    protoParamType l fields =
      .ok (".google.protobuf.Empty", addProtoDep l "google/protobuf/empty.proto") := by
  rcases h with h | h <;> subst h <;> rfl

/-- C2: for a parameter (or result) list that is absent or empty,
`protoParamType` succeeds with ".google.protobuf.Empty" and the dependency
list of the descriptor being filled then contains
"google/protobuf/empty.proto"; a service whose one method has no parameters
and no results (and no tag) gets a method with that input and output type,
and the descriptor keeps the dependency. -/
theorem protoParamType_empty_gives_Empty (env : Env) (l : Loader)
    (fields params results : Option (List Field)) (tsDoc doc : Option CommentGroup)
    (tsName name : Ident) (tag : Option BasicLit)
    (hf : fields = none ∨ fields = some [])
    (hp : params = none ∨ params = some [])
    (hr : results = none ∨ results = some [])
    (hdoc : ∀ d, doc = some d → (env.splitGunkTag d.text).2 = "") :
    (∃ l2, protoParamType l fields = .ok (".google.protobuf.Empty", l2) ∧
        "google/protobuf/empty.proto" ∈ l2.pfile.dependency) ∧
    (∃ l3, protoService env l
        { doc := tsDoc, name := tsName, type := .interfaceType
            [{ doc := doc, names := [name], type := .funcType params results, tag := tag }] }
        = .ok ({ name := some tsName.name, method :=
                  [{ name := some name.name,
                     inputType := some ".google.protobuf.Empty",
                     outputType := some ".google.protobuf.Empty" }] }, l3) ∧
        "google/protobuf/empty.proto" ∈ l3.pfile.dependency) := by
  refine ⟨⟨_, protoParamType_empty l fields hf, addProtoDep_mem _ _⟩, ?_⟩
  cases doc with
  | none =>
    apply Exists.intro
    apply And.intro
    · simp only [protoService, protoServiceMethods, protoParamType_empty _ _ hp,
        protoParamType_empty _ _ hr, ne_eq, not_true_eq_false, ↓reduceIte, List.nil_append]
      rfl
    · exact addProtoDep_mono _ _ _ (addProtoDep_mem _ _)
  | some d =>
    have ht := hdoc d rfl
    apply Exists.intro
    apply And.intro
    · simp only [protoService, protoServiceMethods, protoParamType_empty _ _ hp,
        protoParamType_empty _ _ hr, ht, ne_eq, not_true_eq_false, ↓reduceIte,
        List.nil_append]
      rfl
    · exact addProtoDep_mono _ _ _ (addProtoDep_mem _ _)

theorem protoParamType_empty_gives_Empty_witness :
    (∃ l2, protoParamType sampleLoader (some []) = .ok (".google.protobuf.Empty", l2) ∧
        "google/protobuf/empty.proto" ∈ l2.pfile.dependency) ∧
    (∃ l3, protoService sampleEnv sampleLoader
        { doc := none, name := { name := "S" }, type := .interfaceType
            [{ doc := none, names := [{ name := "Ping" }],
               type := .funcType (some []) none, tag := none }] }
        = .ok ({ name := some "S", method :=
                  [{ name := some "Ping",
                     inputType := some ".google.protobuf.Empty",
                     outputType := some ".google.protobuf.Empty" }] }, l3) ∧
        "google/protobuf/empty.proto" ∈ l3.pfile.dependency) :=
  protoParamType_empty_gives_Empty sampleEnv sampleLoader (some []) (some []) none none none
    { name := "S" } { name := "Ping" } none (Or.inr rfl) (Or.inr rfl) (Or.inl rfl)
    (by intro d h; cases h)

/-! ## C3: identifiers and selectors in `protoType` -/

theorem protoTypeSpecs_none (name : String) (specs : List Spec) :
    protoTypeSpecs name specs = none ↔
      (specs.any (Spec.isStructNamed name) = false ∧
       specs.any (Spec.isIdentNamed name) = false) := by
  induction specs with
  | nil => simp [protoTypeSpecs]
  | cons sp rest ih =>
    cases sp with
    | typeSpec ts =>
      obtain ⟨doc, nm, ty⟩ := ts
      cases ty <;>
        simp only [protoTypeSpecs, Spec.isStructNamed, Spec.isIdentNamed, List.any_cons,
          Bool.false_or, ih]
      · by_cases h : nm.name = name <;> simp [h, ih]
      · by_cases h : nm.name = name <;> simp [h, ih]
    | valueSpec vs => simp [protoTypeSpecs, Spec.isStructNamed, Spec.isIdentNamed, ih]
    | importSpec imp => simp [protoTypeSpecs, Spec.isStructNamed, Spec.isIdentNamed, ih]

theorem protoTypeSpecs_some (name : String) (specs : List Spec) (t : FieldDescriptorProto_Type)
    (h : protoTypeSpecs name specs = some t) :
    (t = FieldDescriptorProto_TYPE_MESSAGE ∧ specs.any (Spec.isStructNamed name) = true) ∨
    (t = FieldDescriptorProto_TYPE_ENUM ∧ specs.any (Spec.isIdentNamed name) = true) := by
  induction specs with
  | nil => simp [protoTypeSpecs] at h
  | cons sp rest ih =>
    cases sp with
    | typeSpec ts =>
      obtain ⟨doc, nm, ty⟩ := ts
      cases ty <;>
        simp only [protoTypeSpecs, Spec.isStructNamed, Spec.isIdentNamed, List.any_cons,
          Bool.false_or] at h ⊢
      all_goals first
        | exact ih h
        | (by_cases hn : nm.name = name
           · simp only [hn, if_true, Option.some.injEq] at h
             simp [hn, h.symm]
           · simp only [hn, if_false] at h
             rcases ih h with ⟨h1, h2⟩ | ⟨h1, h2⟩
             · exact Or.inl ⟨h1, by simp [h2]⟩
             · exact Or.inr ⟨h1, by simp [h2]⟩)
    | valueSpec vs =>
      simp only [protoTypeSpecs, Spec.isStructNamed, Spec.isIdentNamed, List.any_cons,
        Bool.false_or] at h ⊢
      exact ih h
    | importSpec imp =>
      simp only [protoTypeSpecs, Spec.isStructNamed, Spec.isIdentNamed, List.any_cons,
        Bool.false_or] at h ⊢
      exact ih h


theorem Decl.specs_genDecl (gd : GenDecl) : (Decl.genDecl gd).specs = gd.specs := rfl

theorem Decl.specs_funcDecl (n : String) : (Decl.funcDecl n).specs = [] := rfl

theorem Decl.specs_badDecl : Decl.badDecl.specs = [] := rfl

theorem protoTypeDecls_none (name : String) (decls : List Decl) :
    protoTypeDecls name decls = none ↔
      (decls.any (fun d => d.specs.any (Spec.isStructNamed name)) = false ∧
       decls.any (fun d => d.specs.any (Spec.isIdentNamed name)) = false) := by
  induction decls with
  | nil => simp [protoTypeDecls]
  | cons d rest ih =>
    cases d with
    | genDecl gd =>
      simp only [protoTypeDecls, List.any_cons, Decl.specs_genDecl, Bool.or_eq_false_iff]
      cases hs : protoTypeSpecs name gd.specs with
      | none =>
        have := (protoTypeSpecs_none name gd.specs).mp hs
        simp only [ih, this, true_and]
      | some t =>
        have hne : ¬ (protoTypeSpecs name gd.specs = none) := by simp [hs]
        rw [protoTypeSpecs_none] at hne
        simp only [false_iff, reduceCtorEq]
        intro hc
        exact hne ⟨hc.1.1, hc.2.1⟩
    | funcDecl n =>
      simp only [protoTypeDecls, List.any_cons, Decl.specs_funcDecl, List.any_nil,
        Bool.false_or, ih]
    | badDecl =>
      simp only [protoTypeDecls, List.any_cons, Decl.specs_badDecl, List.any_nil,
        Bool.false_or, ih]

theorem protoTypeDecls_some (name : String) (decls : List Decl) (t : FieldDescriptorProto_Type)
    (h : protoTypeDecls name decls = some t) :
    (t = FieldDescriptorProto_TYPE_MESSAGE ∧
      decls.any (fun d => d.specs.any (Spec.isStructNamed name)) = true) ∨
    (t = FieldDescriptorProto_TYPE_ENUM ∧
      decls.any (fun d => d.specs.any (Spec.isIdentNamed name)) = true) := by
  induction decls with
  | nil => simp [protoTypeDecls] at h
  | cons d rest ih =>
    cases d with
    | genDecl gd =>
      simp only [protoTypeDecls] at h
      simp only [List.any_cons, Decl.specs_genDecl]
      cases hs : protoTypeSpecs name gd.specs with
      | none =>
        rw [hs] at h
        rcases ih h with ⟨h1, h2⟩ | ⟨h1, h2⟩
        · exact Or.inl ⟨h1, by rw [h2, Bool.or_true]⟩
        · exact Or.inr ⟨h1, by rw [h2, Bool.or_true]⟩
      | some t2 =>
        rw [hs] at h
        simp only [Option.some.injEq] at h
        subst h
        rcases protoTypeSpecs_some name gd.specs t2 hs with ⟨h1, h2⟩ | ⟨h1, h2⟩
        · exact Or.inl ⟨h1, by rw [h2, Bool.true_or]⟩
        · exact Or.inr ⟨h1, by rw [h2, Bool.true_or]⟩
    | funcDecl n =>
      simp only [protoTypeDecls] at h
      simp only [List.any_cons, Decl.specs_funcDecl, List.any_nil, Bool.false_or]
      exact ih h
    | badDecl =>
      simp only [protoTypeDecls] at h
      simp only [List.any_cons, Decl.specs_badDecl, List.any_nil, Bool.false_or]
      exact ih h

theorem protoTypeFiles_none (name : String) (files : List (String × File)) :
    protoTypeFiles name files = none ↔
      (anySpec (Spec.isStructNamed name) files = false ∧
       anySpec (Spec.isIdentNamed name) files = false) := by
  induction files with
  | nil => simp [protoTypeFiles, anySpec]
  | cons f rest ih =>
    obtain ⟨fname, file⟩ := f
    simp only [protoTypeFiles, anySpec, List.any_cons, Bool.or_eq_false_iff]
    simp only [anySpec] at ih
    cases hs : protoTypeDecls name file.decls with
    | none =>
      have := (protoTypeDecls_none name file.decls).mp hs
      simp only [ih, this, true_and]
    | some t =>
      have hne : ¬ (protoTypeDecls name file.decls = none) := by simp [hs]
      rw [protoTypeDecls_none] at hne
      simp only [false_iff, reduceCtorEq]
      intro hc
      exact hne ⟨hc.1.1, hc.2.1⟩

theorem protoTypeFiles_some (name : String) (files : List (String × File))
    (t : FieldDescriptorProto_Type) (h : protoTypeFiles name files = some t) :
    (t = FieldDescriptorProto_TYPE_MESSAGE ∧ anySpec (Spec.isStructNamed name) files = true) ∨
    (t = FieldDescriptorProto_TYPE_ENUM ∧ anySpec (Spec.isIdentNamed name) files = true) := by
  induction files with
  | nil => simp [protoTypeFiles] at h
  | cons f rest ih =>
    obtain ⟨fname, file⟩ := f
    simp only [protoTypeFiles] at h
    simp only [anySpec, List.any_cons]
    simp only [anySpec] at ih
    cases hs : protoTypeDecls name file.decls with
    | none =>
      rw [hs] at h
      rcases ih h with ⟨h1, h2⟩ | ⟨h1, h2⟩
      · exact Or.inl ⟨h1, by rw [h2, Bool.or_true]⟩
      · exact Or.inr ⟨h1, by rw [h2, Bool.or_true]⟩
    | some t2 =>
      rw [hs] at h
      simp only [Option.some.injEq] at h
      subst h
      rcases protoTypeDecls_some name file.decls t2 hs with ⟨h1, h2⟩ | ⟨h1, h2⟩
      · exact Or.inl ⟨h1, by rw [h2, Bool.true_or]⟩
      · exact Or.inr ⟨h1, by rw [h2, Bool.true_or]⟩

/-- The scan of `protoType` over a package in which no type name is declared
both as a struct type and through an identifier. -/
theorem protoTypeFiles_eq (name : String) (files : List (String × File))
    (huniq : ¬ (anySpec (Spec.isStructNamed name) files = true ∧
                anySpec (Spec.isIdentNamed name) files = true)) :
    protoTypeFiles name files =
      if anySpec (Spec.isStructNamed name) files then some FieldDescriptorProto_TYPE_MESSAGE
      else if anySpec (Spec.isIdentNamed name) files then some FieldDescriptorProto_TYPE_ENUM
      else none := by
  cases hs : protoTypeFiles name files with
  | none =>
    have := (protoTypeFiles_none name files).mp hs
    simp [this.1, this.2]
  | some t =>
    rcases protoTypeFiles_some name files t hs with ⟨h1, h2⟩ | ⟨h1, h2⟩
    · simp [h1, h2]
    · have h3 : anySpec (Spec.isStructNamed name) files = false := by
        cases h : anySpec (Spec.isStructNamed name) files with
        | false => rfl
        | true => exact absurd ⟨h, h2⟩ huniq
      simp [h1, h2, h3]

/-- C3 at a field of type `S` in a package `p` that declares `type S string`:
`S` is neither a struct type nor a named-integer type, and `protoType` maps
the identifier `S` to `TYPE_ENUM` with the name ".p.S" instead of failing,
against the doc comment of `translateDecl`, by which basic integer types
become enums. -/
theorem protoType_string_type_not_failure :
    anySpec (Spec.isStructNamed "S") (pkgFiles stringTypeLoader "p") = false ∧
    anySpec (Spec.isNamedInteger "S") (pkgFiles stringTypeLoader "p") = false ∧
    protoType stringTypeLoader (.ident { name := "S" }) (some { path := "p", name := "p" })
      = .ok (FieldDescriptorProto_TYPE_ENUM, 0, ".p.S") ∧
    protoType stringTypeLoader (.ident { name := "S" }) (some { path := "p", name := "p" })
      ≠ .ok (specNamedTypeResult (pkgFiles stringTypeLoader "p") "p" "S") := by
  decide

/-- What the identifier and selector cases of `protoType` compute: an
identifier `x` resolved in the package `pkg` (passed, or the current one when
nil is passed) maps with an unset label to `TYPE_STRING` for "string",
`TYPE_INT32` for "int" and "int32", `TYPE_BOOL` for "bool"; any other name
maps to `TYPE_MESSAGE` with name ".p.x" if the files of the package declare a
struct type `x`, to `TYPE_ENUM` with name ".p.x" if they declare a type `x`
whose right-hand side is an identifier, whether or not that identifier names
an integer type, and to failure otherwise, provided the package does not
declare `x` both ways.  A selector whose qualifier is bound to the package
`imported` gives the result of its identifier resolved in `imported`. -/
theorem protoType_ident_selector (l : Loader) (x : Ident) (pkgArg : Option Package)
    (pkg : Package) (id sel : Ident) (imported : Package) (pkgArg2 : Option Package)
    (hpkg : pkgArg = some pkg ∨ (pkgArg = none ∧ l.tpkg = some pkg))
    (huniq : ¬ (anySpec (Spec.isStructNamed x.name) (pkgFiles l pkg.path) = true ∧
                anySpec (Spec.isIdentNamed x.name) (pkgFiles l pkg.path) = true))
    (hsel : l.info.objectOf id = some (.pkgName imported)) :
    protoType l (.ident x) pkgArg = .ok (
      if x.name = "string" then (FieldDescriptorProto_TYPE_STRING, 0, x.name)
      else if x.name = "int" ∨ x.name = "int32" then (FieldDescriptorProto_TYPE_INT32, 0, x.name)
      else if x.name = "bool" then (FieldDescriptorProto_TYPE_BOOL, 0, x.name)
      else if anySpec (Spec.isStructNamed x.name) (pkgFiles l pkg.path) then
        (FieldDescriptorProto_TYPE_MESSAGE, 0, "." ++ pkg.path ++ "." ++ x.name)
      else if anySpec (Spec.isIdentNamed x.name) (pkgFiles l pkg.path) then
        (FieldDescriptorProto_TYPE_ENUM, 0, "." ++ pkg.path ++ "." ++ x.name)
      else (0, 0, "")) ∧
    protoType l (.selectorExpr (.ident id) sel) pkgArg2
      = protoType l (.ident sel) (some imported) := by
  constructor
  · have key : protoTypeIdent l x pkgArg = protoTypeIdent l x (some pkg) := by
      rcases hpkg with h | ⟨h, h2⟩
      · rw [h]
      · rw [h]; simp only [protoTypeIdent, pkgOrCurrent, h2]
    simp only [protoType]
    rw [key]
    simp only [protoTypeIdent, pkgOrCurrent]
    by_cases h1 : x.name = "string"
    · simp [h1]
    · by_cases h2 : x.name = "int" ∨ x.name = "int32"
      · simp [h1, h2]
      · by_cases h3 : x.name = "bool"
        · simp [h1, h2, h3]
        · simp only [h1, h2, h3, if_false]
          rw [protoTypeFiles_eq x.name _ huniq]
          by_cases hs : anySpec (Spec.isStructNamed x.name) (pkgFiles l pkg.path) = true
          · simp [hs]
          · by_cases hi : anySpec (Spec.isIdentNamed x.name) (pkgFiles l pkg.path) = true
            · simp [hs, hi]
            · simp [hs, hi]
  · simp only [protoType, hsel]

theorem protoType_ident_selector_witness :
    protoType stringTypeLoader (.ident { name := "S" }) none
      = .ok (FieldDescriptorProto_TYPE_ENUM, 0, ".p.S") ∧
    protoType stringTypeLoader (.selectorExpr (.ident { name := "p" }) { name := "S" }) none
      = protoType stringTypeLoader (.ident { name := "S" }) (some { path := "p", name := "p" }) :=
  protoType_ident_selector stringTypeLoader { name := "S" } none { path := "p", name := "p" }
    { name := "p" } { name := "S" } { path := "p", name := "p" } none
    (Or.inr ⟨rfl, rfl⟩) (by decide) rfl

/-! ## C4: array types -/

theorem pkgOrCurrent_idem (l : Loader) (pkg : Option Package) :
    pkgOrCurrent l (pkgOrCurrent l pkg) = pkgOrCurrent l pkg := by
  cases pkg with
  | some p => rfl
  | none => cases h : l.tpkg <;> simp [pkgOrCurrent, h]

theorem protoTypeIdent_default (l : Loader) (x : Ident) (pkg : Option Package) :
    protoTypeIdent l x (pkgOrCurrent l pkg) = protoTypeIdent l x pkg := by
  simp only [protoTypeIdent, pkgOrCurrent_idem]

/-- Passing the defaulted package is the same as passing the package. -/
theorem protoType_default (l : Loader) (e : Expr) (pkg : Option Package) :
    protoType l e (pkgOrCurrent l pkg) = protoType l e pkg := by
  cases e with
  | ident x => simp only [protoType]; exact protoTypeIdent_default l x pkg
  | selectorExpr x sel => cases x <;> simp only [protoType]
  | arrayType len elt =>
    cases len with
    | some n => simp only [protoType]
    | none => simp only [protoType, pkgOrCurrent_idem]
  | basicLit _ => simp only [protoType]
  | compositeLit _ _ => simp only [protoType]
  | keyValueExpr _ _ => simp only [protoType]
  | structType _ => simp only [protoType]
  | interfaceType _ => simp only [protoType]
  | funcType _ _ => simp only [protoType]
  | other _ => simp only [protoType]

theorem protoTypeIdent_ok (l : Loader) (x : Ident) (pkg : Option Package)
    (htp : l.tpkg.isSome = true) : ∃ r, protoTypeIdent l x pkg = .ok r := by
  obtain ⟨q, hq⟩ := Option.isSome_iff_exists.mp htp
  have hd : ∃ p, pkgOrCurrent l pkg = some p := by
    cases pkg with
    | some p => exact ⟨p, rfl⟩
    | none => exact ⟨q, hq⟩
  obtain ⟨p, hp⟩ := hd
  simp only [protoTypeIdent, hp]
  split
  · exact ⟨_, rfl⟩
  · split
    · exact ⟨_, rfl⟩
    · split
      · exact ⟨_, rfl⟩
      · split <;> exact ⟨_, rfl⟩

/-- With a current package and resolved qualifiers `protoType` does not
panic. -/
theorem protoType_ok (l : Loader) (htp : l.tpkg.isSome = true) :
    ∀ (e : Expr) (pkg : Option Package), e.qualifiersResolved l.info = true →
      ∃ r, protoType l e pkg = .ok r
  | .ident x, pkg, _ => by
    simp only [protoType]
    exact protoTypeIdent_ok l x pkg htp
  | .selectorExpr x sel, pkg, h => by
    cases x with
    | ident id =>
      simp only [Expr.qualifiersResolved] at h
      simp only [protoType]
      split at h
      · exact protoTypeIdent_ok l sel _ htp
      · cases h
    | _ => exact ⟨_, rfl⟩
  | .arrayType (some _) _, _, _ => ⟨_, rfl⟩
  | .arrayType none elt, pkg, h => by
    simp only [Expr.qualifiersResolved] at h
    obtain ⟨r, hr⟩ := protoType_ok l htp elt (pkgOrCurrent l pkg) h
    obtain ⟨typ, lab, name⟩ := r
    simp only [protoType, hr]
    split <;> exact ⟨_, rfl⟩
  | .basicLit _, _, _ => ⟨_, rfl⟩
  | .compositeLit _ _, _, _ => ⟨_, rfl⟩
  | .keyValueExpr _ _, _, _ => ⟨_, rfl⟩
  | .structType _, _, _ => ⟨_, rfl⟩
  | .interfaceType _, _, _ => ⟨_, rfl⟩
  | .funcType _ _, _, _ => ⟨_, rfl⟩
  | .other _, _, _ => ⟨_, rfl⟩

theorem addDoc_info (l : Loader) (doc : Option CommentGroup)
    (f : Option (String → String)) (path : List Int) :
    (addDoc l doc f path).info = l.info := by
  cases doc <;> rfl

theorem addDoc_tpkg (l : Loader) (doc : Option CommentGroup)
    (f : Option (String → String)) (path : List Int) :
    (addDoc l doc f path).tpkg = l.tpkg := by
  cases doc <;> rfl

theorem addDoc_astPkgs (l : Loader) (doc : Option CommentGroup)
    (f : Option (String → String)) (path : List Int) :
    (addDoc l doc f path).astPkgs = l.astPkgs := by
  cases doc <;> rfl

/-- The result of `protoType` depends on the loader through the current
package, the type information and the parsed packages only. -/
theorem protoType_congr (l l2 : Loader) (h1 : l2.tpkg = l.tpkg) (h2 : l2.info = l.info)
    (h3 : l2.astPkgs = l.astPkgs) :
    ∀ (e : Expr) (pkg : Option Package), protoType l2 e pkg = protoType l e pkg
  | .ident x, pkg => by
    have hp : pkgOrCurrent l2 pkg = pkgOrCurrent l pkg := by cases pkg <;> simp [pkgOrCurrent, h1]
    simp only [protoType, protoTypeIdent, hp, pkgFiles, h3]
  | .selectorExpr x sel, pkg => by
    cases x <;> simp only [protoType, protoTypeIdent, pkgOrCurrent, pkgFiles, h2, h3]
  | .arrayType (some _) _, _ => rfl
  | .arrayType none elt, pkg => by
    have hp : pkgOrCurrent l2 pkg = pkgOrCurrent l pkg := by cases pkg <;> simp [pkgOrCurrent, h1]
    simp only [protoType, hp, protoType_congr l l2 h1 h2 h3 elt]
  | .basicLit _, _ => rfl
  | .compositeLit _ _, _ => rfl
  | .keyValueExpr _ _, _ => rfl
  | .structType _, _ => rfl
  | .interfaceType _, _ => rfl
  | .funcType _ _, _ => rfl
  | .other _, _ => rfl

theorem protoType_addDoc (l : Loader) (doc : Option CommentGroup)
    (f : Option (String → String)) (path : List Int) (e : Expr) (pkg : Option Package) :
    protoType (addDoc l doc f path) e pkg = protoType l e pkg :=
  protoType_congr l _ (addDoc_tpkg l doc f path) (addDoc_info l doc f path)
    (addDoc_astPkgs l doc f path) e pkg

/-- The field loop of `protoMessage` returns an error when a field with a
fixed-length array type is among the fields still to be visited. -/
theorem protoMessageFields_fixed_array (env : Env) (fields : List Field) :
    ∀ (l : Loader) (i : Nat) (acc : List FieldDescriptorProto),
      l.tpkg.isSome = true →
      (∀ g ∈ fields, g.type.qualifiersResolved l.info = true) →
      (∃ f ∈ fields, ∃ len elt, f.type = .arrayType (some len) elt) →
      (protoMessageFields env l i fields acc).isError = true := by
  induction fields with
  | nil =>
    intro l i acc _ _ h
    obtain ⟨f, hf, _⟩ := h
    cases hf
  | cons field rest ih =>
    intro l i acc htp hres hex
    unfold protoMessageFields
    split
    · rename_i name hname
      simp only []
      rw [protoType_addDoc]
      obtain ⟨r, hr⟩ := protoType_ok l htp field.type none (hres field (List.mem_cons_self _ _))
      obtain ⟨ptype, plabel, tname⟩ := r
      rw [hr]
      simp only []
      by_cases h0 : ptype = 0
      · simp [h0, Res.isError]
      · have hrest : ∃ f ∈ rest, ∃ len elt, f.type = .arrayType (some len) elt := by
          obtain ⟨f, hf, len, elt, hty⟩ := hex
          rcases List.mem_cons.mp hf with hfe | hfr
          · subst hfe
            rw [hty] at hr
            simp only [protoType, Except.ok.injEq, Prod.mk.injEq] at hr
            exact absurd hr.1.symm h0
          · exact ⟨f, hfr, len, elt, hty⟩
        have htp2 : (addDoc l field.doc none
            [env.messagePath, l.msgIndex, env.messageFieldPath, toInt32 i]).tpkg.isSome = true := by
          rw [addDoc_tpkg]; exact htp
        have hres2 : ∀ g ∈ rest, g.type.qualifiersResolved (addDoc l field.doc none
            [env.messagePath, l.msgIndex, env.messageFieldPath, toInt32 i]).info = true := by
          intro g hg
          rw [addDoc_info]
          exact hres g (List.mem_cons_of_mem _ hg)
        simp only [h0, if_false]
        split
        · exact ih _ _ _ htp2 hres2 hrest
        · exact ih _ _ _ htp2 hres2 hrest
    · rfl

/-- C4: `protoType` fails (type 0) on an array type with a length, so
`protoMessage` returns an error for a struct with a fixed-length array field
(in a type-checked package: a current package is set and every package
qualifier of a field type is bound to a package name); on an array type
without a length whose element type maps to type `t`, with name `n`,
`protoType` returns `t`, `LABEL_REPEATED` and `n`, and fails when `t` is 0. -/
theorem protoType_array (env : Env) (l : Loader) (len elt elt2 : Expr)
    (pkg : Option Package) (ts : TypeSpec) (fields : List Field) (f : Field)
    (t : FieldDescriptorProto_Type) (lab : FieldDescriptorProto_Label) (n : String)
    (hts : ts.type = .structType fields) (hf : f ∈ fields)
    (hfa : f.type = .arrayType (some len) elt)
    (htp : l.tpkg.isSome = true)
    (hres : ∀ g ∈ fields, g.type.qualifiersResolved l.info = true)
    (helt : protoType l elt2 pkg = .ok (t, lab, n)) :
    protoType l (.arrayType (some len) elt) pkg = .ok (0, 0, "") ∧
    (protoMessage env l ts).isError = true ∧
    protoType l (.arrayType none elt2) pkg =
      .ok (if t = 0 then (0, 0, "") else (t, FieldDescriptorProto_LABEL_REPEATED, n)) := by
  refine ⟨rfl, ?_, ?_⟩
  · have h := protoMessageFields_fixed_array env fields
      (addDoc l ts.doc none [env.messagePath, l.msgIndex]) 0 []
      (by rw [addDoc_tpkg]; exact htp)
      (by intro g hg; rw [addDoc_info]; exact hres g hg)
      ⟨f, hf, len, elt, hfa⟩
    simp only [protoMessage, hts]
    revert h
    cases protoMessageFields env (addDoc l ts.doc none [env.messagePath, l.msgIndex]) 0 fields []
      with
    | error e =>
      intro h
      cases e with
      | error m => rfl
      | panic m => cases h
    | ok r => intro h; cases h
  · simp only [protoType, protoType_default, helt]
    split <;> rfl

theorem protoType_array_witness :
    protoType sampleLoader (.arrayType (some (.basicLit { value := "4" })) (.ident { name := "int" }))
      none = .ok (0, 0, "") ∧
    (protoMessage sampleEnv sampleLoader fixedArraySpec).isError = true ∧
    protoType sampleLoader (.arrayType none (.ident { name := "string" })) none =
      .ok (FieldDescriptorProto_TYPE_STRING, FieldDescriptorProto_LABEL_REPEATED, "string") :=
  protoType_array sampleEnv sampleLoader (.basicLit { value := "4" }) (.ident { name := "int" })
    (.ident { name := "string" }) none fixedArraySpec
    [ { names := [{ name := "X" }], type := .ident { name := "int" } },
      { names := [{ name := "A" }],
        type := .arrayType (some (.basicLit { value := "4" })) (.ident { name := "int" }) } ]
    { names := [{ name := "A" }],
      type := .arrayType (some (.basicLit { value := "4" })) (.ident { name := "int" }) }
    FieldDescriptorProto_TYPE_STRING 0 "string" rfl (by simp) rfl rfl
    (by intro g hg; simp at hg; rcases hg with h | h <;> subst h <;> rfl) rfl

/-! ## C5: the fields of a message -/

/-- On success the field loop of `protoMessage` adds one descriptor per field,
in order, with the name of the field and the number of its tag. -/
theorem protoMessageFields_ok (env : Env) (fields : List Field) :
    ∀ (l : Loader) (i : Nat) (acc fs : List FieldDescriptorProto) (l2 : Loader),
      protoMessageFields env l i fields acc = .ok (fs, l2) →
      fs.map (fun d => (d.name, d.number)) =
        acc.map (fun d => (d.name, d.number)) ++
          fields.map (fun f => (f.names.head?.map Ident.name, env.protoNumber f.tag)) ∧
      ∀ f ∈ fields, f.names.length = 1 := by
  induction fields with
  | nil =>
    intro l i acc fs l2 h
    simp only [protoMessageFields, Except.ok.injEq, Prod.mk.injEq] at h
    simp [h.1]
  | cons field rest ih =>
    intro l i acc fs l2 h
    unfold protoMessageFields at h
    split at h
    · rename_i name hname
      simp only [] at h
      split at h
      · cases h
      · rename_i ptype plabel tname hpt
        split at h
        · cases h
        · split at h
          · obtain ⟨h1, h2⟩ := ih _ _ _ _ _ h
            refine ⟨?_, ?_⟩
            · rw [h1]
              simp [hname]
            · intro f hf
              rcases List.mem_cons.mp hf with hfe | hfr
              · subst hfe; simp [hname]
              · exact h2 f hfr
          · obtain ⟨h1, h2⟩ := ih _ _ _ _ _ h
            refine ⟨?_, ?_⟩
            · rw [h1]
              simp [hname]
            · intro f hf
              rcases List.mem_cons.mp hf with hfe | hfr
              · subst hfe; simp [hname]
              · exact h2 f hfr
    · cases h

/-- C5: when `protoMessage` succeeds on a type declaration, the declaration is
a struct type, the message has its name, every source field has exactly one
name, and the field descriptors are, in source order, one per source field
with that name and with the number `protoNumber` gives for the field tag. -/
theorem protoMessage_fields (env : Env) (l l2 : Loader) (ts : TypeSpec) (msg : DescriptorProto)
    (h : protoMessage env l ts = .ok (msg, l2)) :
    ∃ fields, ts.type = .structType fields ∧
      msg.name = some ts.name.name ∧
      msg.field.length = fields.length ∧
      (∀ f ∈ fields, f.names.length = 1) ∧
      msg.field.map (fun d => (d.name, d.number)) =
        fields.map (fun f => (f.names.head?.map Ident.name, env.protoNumber f.tag)) := by
  unfold protoMessage at h
  simp only [] at h
  split at h
  · rename_i fields hty
    split at h
    · cases h
    · rename_i fs l3 hfs
      simp only [Except.ok.injEq, Prod.mk.injEq] at h
      obtain ⟨hmsg, _⟩ := h
      subst hmsg
      obtain ⟨h1, h2⟩ := protoMessageFields_ok env fields _ _ _ _ _ hfs
      simp only [List.map_nil, List.nil_append] at h1
      refine ⟨fields, hty, rfl, ?_, h2, h1⟩
      have := congrArg List.length h1
      simpa using this
  · cases h

theorem protoMessage_fields_witness :
    protoMessage sampleEnv sampleLoader intFieldSpec =
      .ok ({ name := some "M", field :=
              [{ name := some "X", number := some 1, label := some 0,
                 type := some FieldDescriptorProto_TYPE_INT32 }] },
           { sampleLoader with msgIndex := 1 }) ∧
    ∃ fields, intFieldSpec.type = .structType fields ∧
      (some "M" : Option String) = some intFieldSpec.name.name ∧
      [({ name := some "X", number := some 1, label := some 0,
          type := some FieldDescriptorProto_TYPE_INT32 } : FieldDescriptorProto)].length
        = fields.length ∧
      (∀ f ∈ fields, f.names.length = 1) ∧
      [({ name := some "X", number := some 1, label := some 0,
          type := some FieldDescriptorProto_TYPE_INT32 } : FieldDescriptorProto)].map
          (fun d => (d.name, d.number)) =
        fields.map (fun f => (f.names.head?.map Ident.name, sampleEnv.protoNumber f.tag)) :=
  ⟨rfl, protoMessage_fields sampleEnv sampleLoader { sampleLoader with msgIndex := 1 }
    intFieldSpec _ rfl⟩

/-! ## C6: the values of an enum -/

theorem toInt32_toInt64 (v : Int) : toInt32 (toInt64 v) = toInt32 v := by
  unfold toInt32 toInt64
  omega

theorem toInt32_of_range (v : Int) (h1 : -2147483648 ≤ v) (h2 : v < 2147483648) :
    toInt32 v = v := by
  unfold toInt32
  omega

theorem addDoc_gfile (l : Loader) (doc : Option CommentGroup)
    (f : Option (String → String)) (path : List Int) :
    (addDoc l doc f path).gfile = l.gfile := by
  cases doc <;> rfl

/-- What the loop of `protoEnum` over one constant declaration appends. -/
theorem protoEnumSpecs_ok (env : Env) (ts : TypeSpec) (et : Option GoType)
    (specs : List Spec) :
    ∀ (l : Loader) (i : Nat) (acc vs : List EnumValueDescriptorProto) (l2 : Loader),
      protoEnumSpecs env ts et l i specs acc = .ok (vs, l2) →
      l2.info = l.info ∧ l2.gfile = l.gfile ∧
      vs = acc ++ ((specs.flatMap Spec.constNames).filter
          (fun n => decide (l.info.typeOf n = et))).map
        (fun n => { name := some n.name, number := (constIntValue l.info n).map toInt32 }) ∧
      ∀ n ∈ (specs.flatMap Spec.constNames).filter (fun n => decide (l.info.typeOf n = et)),
        ∃ v, constIntValue l.info n = some v := by
  induction specs with
  | nil =>
    intro l i acc vs l2 h
    simp only [protoEnumSpecs, Except.ok.injEq, Prod.mk.injEq] at h
    simp [h.1, h.2]
  | cons spec rest ih =>
    intro l i acc vs l2 h
    cases spec with
    | valueSpec vsp =>
      simp only [protoEnumSpecs] at h
      split at h
      · rename_i name hname
        simp only [List.flatMap_cons, Spec.constNames, hname, List.singleton_append]
        by_cases hty : l.info.typeOf name = et
        · simp only [hty, ne_eq, not_true_eq_false, if_false] at h
          split at h
          · rename_i val hdef
            split at h
            · cases h
            · rename_i ival hival
              obtain ⟨h1, h2, h3, h4⟩ := ih _ _ _ _ _ h
              rw [addDoc_info] at h1 h3 h4
              rw [addDoc_gfile] at h2
              have hnum : (constIntValue l.info name).map toInt32 = some (toInt32 ival) ∧
                  ∃ v, constIntValue l.info name = some v := by
                cases val with
                | int v =>
                  simp only [int64Val, Except.ok.injEq] at hival
                  subst hival
                  simp [constIntValue, hdef, toInt32_toInt64]
                | unknown =>
                  simp only [int64Val, Except.ok.injEq] at hival
                  subst hival
                  simp [constIntValue, hdef]
                | nonInt d => simp [int64Val] at hival
              refine ⟨h1, h2, ?_, ?_⟩
              · rw [h3]
                simp [List.filter_cons, hty, hnum.1]
              · intro n hn
                simp only [List.filter_cons, hty, decide_True, if_true, List.mem_cons] at hn
                rcases hn with hn | hn
                · subst hn; exact hnum.2
                · exact h4 n hn
          · cases h
        · simp only [hty, ne_eq, not_false_eq_true, if_true] at h
          obtain ⟨h1, h2, h3, h4⟩ := ih _ _ _ _ _ h
          refine ⟨h1, h2, ?_, ?_⟩
          · rw [h3]
            simp [List.filter_cons, hty]
          · intro n hn
            simp only [List.filter_cons, hty, decide_False] at hn
            exact h4 n hn
      · cases h
    | typeSpec t => simp [protoEnumSpecs] at h
    | importSpec t => simp [protoEnumSpecs] at h

/-- What the loop of `protoEnum` over the declarations of the file appends. -/
theorem protoEnumDecls_ok (env : Env) (ts : TypeSpec) (et : Option GoType)
    (decls : List Decl) :
    ∀ (l : Loader) (acc vs : List EnumValueDescriptorProto) (l2 : Loader),
      protoEnumDecls env ts et l decls acc = .ok (vs, l2) →
      l2.info = l.info ∧ l2.gfile = l.gfile ∧
      vs = acc ++ ((decls.flatMap Decl.constNames).filter
          (fun n => decide (l.info.typeOf n = et))).map
        (fun n => { name := some n.name, number := (constIntValue l.info n).map toInt32 }) ∧
      ∀ n ∈ (decls.flatMap Decl.constNames).filter (fun n => decide (l.info.typeOf n = et)),
        ∃ v, constIntValue l.info n = some v := by
  induction decls with
  | nil =>
    intro l acc vs l2 h
    simp only [protoEnumDecls, Except.ok.injEq, Prod.mk.injEq] at h
    simp [h.1, h.2]
  | cons decl rest ih =>
    intro l acc vs l2 h
    cases decl with
    | genDecl gd =>
      simp only [protoEnumDecls] at h
      by_cases htok : gd.tok = Token.CONST
      · simp only [htok, ne_eq, not_true_eq_false, if_false] at h
        split at h
        · cases h
        · rename_i acc2 l3 hspecs
          obtain ⟨a1, a2, a3, a4⟩ := protoEnumSpecs_ok env ts et gd.specs _ _ _ _ _ hspecs
          obtain ⟨b1, b2, b3, b4⟩ := ih _ _ _ _ h
          rw [a1] at b1 b3 b4
          refine ⟨b1, b2.trans a2, ?_, ?_⟩
          · rw [b3, a3]
            simp [List.flatMap_cons, Decl.constNames, htok, List.filter_append]
          · intro n hn
            simp only [List.flatMap_cons, Decl.constNames, htok, if_true, List.filter_append,
              List.mem_append] at hn
            rcases hn with hn | hn
            · exact a4 n hn
            · exact b4 n hn
      · simp only [htok, ne_eq, not_false_eq_true, if_true] at h
        obtain ⟨b1, b2, b3, b4⟩ := ih _ _ _ _ h
        refine ⟨b1, b2, ?_, ?_⟩
        · rw [b3]
          simp [List.flatMap_cons, Decl.constNames, htok]
        · intro n hn
          simp only [List.flatMap_cons, Decl.constNames, htok, if_false, List.nil_append] at hn
          exact b4 n hn
    | funcDecl nm =>
      simp only [protoEnumDecls] at h
      obtain ⟨b1, b2, b3, b4⟩ := ih _ _ _ _ h
      exact ⟨b1, b2, by rw [b3]; simp [List.flatMap_cons, Decl.constNames],
        by intro n hn; simp only [List.flatMap_cons, Decl.constNames, List.nil_append] at hn
           exact b4 n hn⟩
    | badDecl =>
      simp only [protoEnumDecls] at h
      obtain ⟨b1, b2, b3, b4⟩ := ih _ _ _ _ h
      exact ⟨b1, b2, by rw [b3]; simp [List.flatMap_cons, Decl.constNames],
        by intro n hn; simp only [List.flatMap_cons, Decl.constNames, List.nil_append] at hn
           exact b4 n hn⟩

/-- C6 as stated fails: for `type Color int` with `const Big Color = 1 << 32`
the enum value `Big` gets the number 0, while the compile-time value of the
constant is 4294967296, so the values are not the constants of the type with
their compile-time values as numbers. -/
theorem protoEnum_number_truncated :
    fileConstsOfType bigColorLoader.info bigColorLoader.gfile
        (bigColorLoader.info.typeOf colorSpec.name) = [{ name := "Big" }] ∧
    constIntValue bigColorLoader.info { name := "Big" } = some 4294967296 ∧
    (protoEnum sampleEnv bigColorLoader colorSpec).map (fun r => r.1) =
      .ok { name := some "Color", value := [{ name := some "Big", number := some 0 }] } ∧
    (protoEnum sampleEnv bigColorLoader colorSpec).map (fun r => r.1) ≠
      .ok (EnumDescriptorProto.mk (some "Color")
        ((fileConstsOfType bigColorLoader.info bigColorLoader.gfile
          (bigColorLoader.info.typeOf colorSpec.name)).map
          (fun n => { name := some n.name, number := constIntValue bigColorLoader.info n }))) := by
  decide

/-- C6, amended: when `protoEnum` succeeds for the type `E`, the enum has the
name of `E` and its values are, in source order, exactly the constants of the
file whose resolved type is that of `E`, each with its own name and with the
number obtained by converting the compile-time integer value of the constant
to `int32`; the conversion leaves a value `v` with -2^31 ≤ v < 2^31 as it
is. -/
theorem protoEnum_values (env : Env) (l l2 : Loader) (ts : TypeSpec)
    (enum : EnumDescriptorProto) (v : Int)
    (h : protoEnum env l ts = .ok (enum, l2))
    (hlo : -2147483648 ≤ v) (hhi : v < 2147483648) :
    enum.name = some ts.name.name ∧
    enum.value = (fileConstsOfType l.info l.gfile (l.info.typeOf ts.name)).map
      (fun n => { name := some n.name, number := (constIntValue l.info n).map toInt32 }) ∧
    (∀ n ∈ fileConstsOfType l.info l.gfile (l.info.typeOf ts.name),
      ∃ w, constIntValue l.info n = some w) ∧
    toInt32 v = v := by
  unfold protoEnum at h
  simp only [] at h
  split at h
  · cases h
  · rename_i vs l3 hd
    simp only [Except.ok.injEq, Prod.mk.injEq] at h
    obtain ⟨he, _⟩ := h
    subst he
    obtain ⟨_, _, b3, b4⟩ := protoEnumDecls_ok env ts _ _ _ _ _ _ hd
    rw [addDoc_info, addDoc_gfile] at b3 b4
    simp only [List.nil_append] at b3
    exact ⟨rfl, b3, b4, toInt32_of_range v hlo hhi⟩

theorem protoEnum_values_witness :
    (protoEnum sampleEnv colorLoader colorSpec =
      .ok ({ name := some "Color", value :=
              [ { name := some "Red", number := some 0 },
                { name := some "Green", number := some 1 },
                { name := some "Blue", number := some 2 } ] },
           { colorLoader with enumIndex := 1 })) ∧
    ((some "Color" : Option String) = some colorSpec.name.name ∧
     [ ({ name := some "Red", number := some 0 } : EnumValueDescriptorProto),
       { name := some "Green", number := some 1 },
       { name := some "Blue", number := some 2 } ] =
      (fileConstsOfType colorLoader.info colorLoader.gfile
        (colorLoader.info.typeOf colorSpec.name)).map
      (fun n => { name := some n.name,
                  number := (constIntValue colorLoader.info n).map toInt32 }) ∧
     (∀ n ∈ fileConstsOfType colorLoader.info colorLoader.gfile
        (colorLoader.info.typeOf colorSpec.name),
      ∃ w, constIntValue colorLoader.info n = some w) ∧
     toInt32 2 = 2) :=
  ⟨rfl, protoEnum_values sampleEnv colorLoader { colorLoader with enumIndex := 1 } colorSpec
    _ 2 rfl (by decide) (by decide)⟩

/-! ## Lemmas on Go maps -/

theorem GoMap.find_cons (ek : String) (ev : β) (k : String) (rest : List (String × β)) :
    ((ek, ev) :: rest).find? (fun e => e.1 == k)
      = if ek = k then some (ek, ev) else rest.find? (fun e => e.1 == k) := by
  by_cases h : ek = k <;> simp [List.find?_cons, h]

theorem GoMap.find_replace (k : String) (v : β) (k2 : String) (es : List (String × β)) :
    ((es.map (fun e => if e.1 = k then (k, v) else e)).find? (fun e => e.1 == k2)).map Prod.snd
      = if k2 = k then (if k ∈ es.map Prod.fst then some v else none)
        else (es.find? (fun e => e.1 == k2)).map Prod.snd := by
  induction es with
  | nil => simp
  | cons e rest ih =>
    obtain ⟨ek, ev⟩ := e
    by_cases h1 : ek = k
    · by_cases h2 : k2 = k
      · subst h1 h2
        simp [GoMap.find_cons]
      · have h3 : ¬ (k = k2) := fun h => h2 h.symm
        subst h1
        simp only [List.map_cons, if_true, GoMap.find_cons, h3, h2, if_false]
        rw [ih]
        simp [h2]
    · by_cases h2 : k2 = k
      · subst h2
        have h4 : ¬ (k2 = ek) := fun h => h1 h.symm
        simp only [List.map_cons, h1, if_false, GoMap.find_cons, if_true, List.mem_cons, h4,
          false_or]
        rw [ih]
        simp
      · simp only [List.map_cons, h1, if_false, GoMap.find_cons, h2]
        by_cases h3 : ek = k2
        · simp [h3]
        · simp only [h3, if_false]
          rw [ih]
          simp [h2]

theorem GoMap.find_none_of_not_mem (k : String) (es : List (String × β))
    (h : k ∉ es.map Prod.fst) : es.find? (fun e => e.1 == k) = none := by
  rw [List.find?_eq_none]
  intro e he hk
  apply h
  have : e.1 = k := by simpa using hk
  exact this ▸ List.mem_map_of_mem Prod.fst he

/-- Reading a map after the assignment `m[k] = v`. -/
theorem GoMap.lookup_set (m : GoMap β) (k : String) (v : β) (k2 : String) :
    (m.set k v).lookup k2 = if k2 = k then some v else m.lookup k2 := by
  unfold GoMap.set
  split
  · rename_i h
    simp only [GoMap.lookup]
    rw [GoMap.find_replace]
    simp [h]
  · rename_i h
    simp only [GoMap.lookup, List.find?_append]
    by_cases h2 : k2 = k
    · subst h2
      rw [GoMap.find_none_of_not_mem k2 _ h]
      simp
    · have h3 : ¬ (k = k2) := fun hh => h2 hh.symm
      simp [h2, h3, List.find?_cons]

theorem GoMap.lookup_of_mem (m : GoMap β) (k : String) (v : β) (h : (k, v) ∈ m.entries) :
    m.lookup k = some v := by
  obtain ⟨es, nd⟩ := m
  simp only [GoMap.lookup]
  simp only at h
  induction es with
  | nil => cases h
  | cons e rest ih =>
    obtain ⟨ek, ev⟩ := e
    simp only [List.map_cons, List.nodup_cons] at nd
    rcases List.mem_cons.mp h with h1 | h1
    · cases h1
      simp [GoMap.find_cons]
    · have hne : ¬ (ek = k) := by
        intro hh
        apply nd.1
        rw [hh]
        exact List.mem_map_of_mem Prod.fst h1
      simp only [GoMap.find_cons, hne, if_false]
      exact ih nd.2 h1

theorem GoMap.mem_of_lookup (m : GoMap β) (k : String) (v : β) (h : m.lookup k = some v) :
    (k, v) ∈ m.entries := by
  simp only [GoMap.lookup] at h
  cases he : m.entries.find? (fun e => e.1 == k) with
  | none => rw [he] at h; cases h
  | some e =>
    rw [he] at h
    simp only [Option.map_some', Option.some.injEq] at h
    have h1 := List.mem_of_find?_eq_some he
    have h2 := List.find?_some he
    have h3 : e.1 = k := by simpa using h2
    obtain ⟨ek, ev⟩ := e
    simp only at h3 h
    subst h3 h
    exact h1

/-! ## What the helpers leave untouched -/

theorem Loader.sameTables_refl (l : Loader) : l.sameTables l :=
  ⟨rfl, rfl, rfl, rfl, rfl, rfl, rfl, rfl, rfl⟩

theorem Loader.sameTables_trans {l l2 l3 : Loader} (h1 : l.sameTables l2)
    (h2 : l2.sameTables l3) : l.sameTables l3 := by
  obtain ⟨a1, a2, a3, a4, a5, a6, a7, a8, a9⟩ := h1
  obtain ⟨b1, b2, b3, b4, b5, b6, b7, b8, b9⟩ := h2
  exact ⟨b1.trans a1, b2.trans a2, b3.trans a3, b4.trans a4, b5.trans a5, b6.trans a6,
    b7.trans a7, b8.trans a8, b9.trans a9⟩

theorem addDoc_same (l : Loader) (doc : Option CommentGroup) (f : Option (String → String))
    (path : List Int) : l.sameTables (addDoc l doc f path) := by
  cases doc <;> exact ⟨rfl, rfl, rfl, rfl, rfl, rfl, rfl, rfl, rfl⟩

theorem addProtoDep_same (l : Loader) (protoPath : String) :
    l.sameTables (addProtoDep l protoPath) := by
  unfold addProtoDep
  split <;> exact ⟨rfl, rfl, rfl, rfl, rfl, rfl, rfl, rfl, rfl⟩

theorem protoParamType_same (l l2 : Loader) (fields : Option (List Field)) (t : String)
    (h : protoParamType l fields = .ok (t, l2)) : l.sameTables l2 := by
  unfold protoParamType at h
  split at h
  · simp only [Except.ok.injEq, Prod.mk.injEq] at h
    rw [← h.2]; exact addProtoDep_same _ _
  · simp only [Except.ok.injEq, Prod.mk.injEq] at h
    rw [← h.2]; exact addProtoDep_same _ _
  · split at h
    · cases h
    · split at h
      · cases h
      · split at h
        · cases h
        · simp only [Except.ok.injEq, Prod.mk.injEq] at h
          rw [← h.2]; exact Loader.sameTables_refl _

theorem protoMessageFields_same (env : Env) (fields : List Field) :
    ∀ (l : Loader) (i : Nat) (acc fs : List FieldDescriptorProto) (l2 : Loader),
      protoMessageFields env l i fields acc = .ok (fs, l2) → l.sameTables l2 := by
  induction fields with
  | nil =>
    intro l i acc fs l2 h
    simp only [protoMessageFields, Except.ok.injEq, Prod.mk.injEq] at h
    rw [← h.2]; exact Loader.sameTables_refl _
  | cons field rest ih =>
    intro l i acc fs l2 h
    unfold protoMessageFields at h
    split at h
    · simp only [] at h
      split at h
      · cases h
      · split at h
        · cases h
        · split at h
          · exact Loader.sameTables_trans (addDoc_same _ _ _ _) (ih _ _ _ _ _ h)
          · exact Loader.sameTables_trans (addDoc_same _ _ _ _) (ih _ _ _ _ _ h)
    · cases h

theorem protoMessage_same (env : Env) (l l2 : Loader) (ts : TypeSpec) (msg : DescriptorProto)
    (h : protoMessage env l ts = .ok (msg, l2)) : l.sameTables l2 := by
  unfold protoMessage at h
  simp only [] at h
  split at h
  · split at h
    · cases h
    · rename_i fs l3 hfs
      simp only [Except.ok.injEq, Prod.mk.injEq] at h
      rw [← h.2]
      have h3 := Loader.sameTables_trans (addDoc_same _ _ _ _)
        (protoMessageFields_same env _ _ _ _ _ _ hfs)
      exact h3
  · cases h

theorem protoServiceMethods_same (env : Env) (methods : List Field) :
    ∀ (l : Loader) (i : Nat) (acc ms : List MethodDescriptorProto) (l2 : Loader),
      protoServiceMethods env l i methods acc = .ok (ms, l2) → l.sameTables l2 := by
  induction methods with
  | nil =>
    intro l i acc ms l2 h
    simp only [protoServiceMethods, Except.ok.injEq, Prod.mk.injEq] at h
    rw [← h.2]; exact Loader.sameTables_refl _
  | cons method rest ih =>
    intro l i acc ms l2 h
    unfold protoServiceMethods at h
    split at h
    · simp only [] at h
      split at h
      · split at h
        · cases h
        · rename_i inputType la hin
          split at h
          · cases h
          · rename_i outputType lb hout
            have hs := Loader.sameTables_trans
              (Loader.sameTables_trans (addDoc_same _ _ _ _) (protoParamType_same _ _ _ _ hin))
              (protoParamType_same _ _ _ _ hout)
            split at h
            · split at h
              · cases h
              · exact Loader.sameTables_trans hs (ih _ _ _ _ _ h)
            · exact Loader.sameTables_trans hs (ih _ _ _ _ _ h)
      · cases h
    · cases h

theorem protoService_same (env : Env) (l l2 : Loader) (ts : TypeSpec)
    (srv : ServiceDescriptorProto) (h : protoService env l ts = .ok (srv, l2)) :
    l.sameTables l2 := by
  unfold protoService at h
  split at h
  · split at h
    · cases h
    · rename_i ms l3 hms
      simp only [Except.ok.injEq, Prod.mk.injEq] at h
      rw [← h.2]
      have h3 := protoServiceMethods_same env _ _ _ _ _ _ hms
      exact h3
  · cases h

theorem protoEnumSpecs_same (env : Env) (ts : TypeSpec) (et : Option GoType)
    (specs : List Spec) :
    ∀ (l : Loader) (i : Nat) (acc vs : List EnumValueDescriptorProto) (l2 : Loader),
      protoEnumSpecs env ts et l i specs acc = .ok (vs, l2) → l.sameTables l2 := by
  induction specs with
  | nil =>
    intro l i acc vs l2 h
    simp only [protoEnumSpecs, Except.ok.injEq, Prod.mk.injEq] at h
    rw [← h.2]; exact Loader.sameTables_refl _
  | cons spec rest ih =>
    intro l i acc vs l2 h
    cases spec with
    | valueSpec vsp =>
      simp only [protoEnumSpecs] at h
      split at h
      · split at h
        · exact ih _ _ _ _ _ h
        · split at h
          · split at h
            · cases h
            · exact Loader.sameTables_trans (addDoc_same _ _ _ _) (ih _ _ _ _ _ h)
          · cases h
      · cases h
    | typeSpec t => simp [protoEnumSpecs] at h
    | importSpec t => simp [protoEnumSpecs] at h

theorem protoEnumDecls_same (env : Env) (ts : TypeSpec) (et : Option GoType)
    (decls : List Decl) :
    ∀ (l : Loader) (acc vs : List EnumValueDescriptorProto) (l2 : Loader),
      protoEnumDecls env ts et l decls acc = .ok (vs, l2) → l.sameTables l2 := by
  induction decls with
  | nil =>
    intro l acc vs l2 h
    simp only [protoEnumDecls, Except.ok.injEq, Prod.mk.injEq] at h
    rw [← h.2]; exact Loader.sameTables_refl _
  | cons decl rest ih =>
    intro l acc vs l2 h
    cases decl with
    | genDecl gd =>
      simp only [protoEnumDecls] at h
      split at h
      · exact ih _ _ _ _ h
      · split at h
        · cases h
        · rename_i acc2 l3 hsp
          exact Loader.sameTables_trans (protoEnumSpecs_same env ts et _ _ _ _ _ _ hsp)
            (ih _ _ _ _ h)
    | funcDecl nm =>
      simp only [protoEnumDecls] at h
      exact ih _ _ _ _ h
    | badDecl =>
      simp only [protoEnumDecls] at h
      exact ih _ _ _ _ h

theorem protoEnum_same (env : Env) (l l2 : Loader) (ts : TypeSpec) (enum : EnumDescriptorProto)
    (h : protoEnum env l ts = .ok (enum, l2)) : l.sameTables l2 := by
  unfold protoEnum at h
  simp only [] at h
  split at h
  · cases h
  · rename_i vs l3 hd
    simp only [Except.ok.injEq, Prod.mk.injEq] at h
    rw [← h.2]
    have h3 := Loader.sameTables_trans (addDoc_same _ _ _ _)
      (protoEnumDecls_same env ts _ _ _ _ _ _ hd)
    exact h3

theorem translateSpecs_same (env : Env) (gd : GenDecl) (specs : List Spec) :
    ∀ (l l2 : Loader), translateSpecs env gd l specs = .ok l2 → l.sameTables l2 := by
  induction specs with
  | nil =>
    intro l l2 h
    simp only [translateSpecs, Except.ok.injEq] at h
    rw [← h]; exact Loader.sameTables_refl _
  | cons spec rest ih =>
    intro l l2 h
    cases spec with
    | typeSpec ts0 =>
      simp only [translateSpecs] at h
      split at h
      · split at h
        · cases h
        · rename_i msg l3 hm
          have h3 := ih _ _ h
          exact Loader.sameTables_trans (protoMessage_same env _ _ _ _ hm) h3
      · split at h
        · cases h
        · rename_i srv l3 hm
          have h3 := ih _ _ h
          exact Loader.sameTables_trans (protoService_same env _ _ _ _ hm) h3
      · split at h
        · cases h
        · rename_i enum l3 hm
          have h3 := ih _ _ h
          exact Loader.sameTables_trans (protoEnum_same env _ _ _ _ hm) h3
      · cases h
    | valueSpec t => simp [translateSpecs] at h
    | importSpec t => simp [translateSpecs] at h

theorem translateDecl_same (env : Env) (l l2 : Loader) (decl : Decl)
    (h : translateDecl env l decl = .ok l2) : l.sameTables l2 := by
  cases decl with
  | genDecl gd =>
    simp only [translateDecl] at h
    split at h
    · exact translateSpecs_same env gd _ _ _ h
    · simp only [Except.ok.injEq] at h
      rw [← h]; exact Loader.sameTables_refl _
    · simp only [Except.ok.injEq] at h
      rw [← h]; exact Loader.sameTables_refl _
    · cases h
  | funcDecl nm => simp [translateDecl] at h
  | badDecl => simp [translateDecl] at h

theorem translateDecls_same (env : Env) (decls : List Decl) :
    ∀ (l l2 : Loader), translateDecls env l decls = .ok l2 → l.sameTables l2 := by
  induction decls with
  | nil =>
    intro l l2 h
    simp only [translateDecls, Except.ok.injEq] at h
    rw [← h]; exact Loader.sameTables_refl _
  | cons decl rest ih =>
    intro l l2 h
    simp only [translateDecls] at h
    split at h
    · cases h
    · rename_i l3 hd
      exact Loader.sameTables_trans (translateDecl_same env _ _ _ hd) (ih _ _ h)

/-- What a successful `translateFile` changes: the file joins the to-generate
set of the package, and the registry gains a descriptor for the file unless
it has one. -/
theorem translateFile_ok (env : Env) (l l2 : Loader) (path file : String)
    (h : translateFile env l path file = .ok l2) :
    l2.astPkgs = l.astPkgs ∧ l2.typePkgs = l.typePkgs ∧ l2.loadPkgs = l.loadPkgs ∧
    l2.tpkg = l.tpkg ∧ l2.info = l.info ∧ l2.origPaths = l.origPaths ∧
    (∃ files, l.toGen.lookup path = some files ∧
      l2.toGen = l.toGen.set path (files.set file true)) ∧
    ((∃ pf, l.allProto.lookup file = some pf ∧ l2.allProto = l.allProto) ∨
     (l.allProto.lookup file = none ∧ ∃ pf, l2.allProto = l.allProto.set file pf)) := by
  unfold translateFile at h
  simp only [] at h
  split at h
  · cases h
  · rename_i files hfiles
    split at h
    · rename_i pf hpf
      simp only [Except.ok.injEq] at h
      subst h
      exact ⟨rfl, rfl, rfl, rfl, rfl, rfl, ⟨files, hfiles, rfl⟩, Or.inl ⟨pf, hpf, rfl⟩⟩
    · rename_i hpf
      split at h
      · split at h
        · cases h
        · rename_i l3 hd
          simp only [Except.ok.injEq] at h
          subst h
          have hs := Loader.sameTables_trans (addDoc_same _ _ _ _)
            (translateDecls_same env _ _ _ hd)
          obtain ⟨a1, a2, a3, a4, a5, a6, a7, a8, a9⟩ := hs
          refine ⟨a5, a6, a4, a1, a2, a9, ⟨files, hfiles, a7⟩, Or.inr ⟨hpf, l3.pfile, ?_⟩⟩
          simp only [a8]
      · cases h

/-- After the first loop of `translatePkg` every file it visited has a
descriptor in the registry; descriptors that existed before are kept. -/
theorem translateFiles_ok (env : Env) (path : String) (names : List String) :
    ∀ (l l2 : Loader), translateFiles env path l names = .ok l2 →
      l2.astPkgs = l.astPkgs ∧
      (∀ k pf, l.allProto.lookup k = some pf → l2.allProto.lookup k = some pf) ∧
      (∀ name ∈ names, ∃ pf, l2.allProto.lookup name = some pf) := by
  induction names with
  | nil =>
    intro l l2 h
    simp only [translateFiles, Except.ok.injEq] at h
    subst h
    exact ⟨rfl, fun _ _ hk => hk, fun _ hn => by cases hn⟩
  | cons file rest ih =>
    intro l l2 h
    simp only [translateFiles] at h
    split at h
    · cases h
    · rename_i l3 hf
      obtain ⟨a1, _, _, _, _, _, _, a8⟩ := translateFile_ok env _ _ _ _ hf
      obtain ⟨b1, b2, b3⟩ := ih _ _ h
      have keep : ∀ k pf, l.allProto.lookup k = some pf → l3.allProto.lookup k = some pf := by
        intro k pf hk
        rcases a8 with ⟨pf0, _, heq⟩ | ⟨hnone, pf0, heq⟩
        · rw [heq]; exact hk
        · rw [heq, GoMap.lookup_set]
          by_cases hkf : k = file
          · subst hkf; rw [hnone] at hk; cases hk
          · simp [hkf, hk]
      have here : ∃ pf, l3.allProto.lookup file = some pf := by
        rcases a8 with ⟨pf0, hpf0, heq⟩ | ⟨_, pf0, heq⟩
        · exact ⟨pf0, by rw [heq]; exact hpf0⟩
        · exact ⟨pf0, by rw [heq, GoMap.lookup_set]; simp⟩
      refine ⟨b1.trans a1, fun k pf hk => b2 k pf (keep k pf hk), ?_⟩
      intro name hn
      rcases List.mem_cons.mp hn with hn | hn
      · subst hn
        obtain ⟨pf, hpf⟩ := here
        exact ⟨pf, b2 _ _ hpf⟩
      · exact b3 name hn

theorem importDeps_congr (env : Env) (l l2 : Loader) (h : l2.astPkgs = l.astPkgs)
    (imps : List ImportSpec) : importDeps env l2 imps = importDeps env l imps := by
  induction imps with
  | nil => rfl
  | cons imp rest ih => simp only [importDeps, pkgFiles, h, ih]

theorem pkgDeps_congr (env : Env) (l l2 : Loader) (h : l2.astPkgs = l.astPkgs)
    (astFiles : List (String × File)) (name : String) (gfile : File) :
    pkgDeps env l2 astFiles name gfile = pkgDeps env l astFiles name gfile := by
  simp only [pkgDeps, importDeps_congr env l l2 h]

/-- The second loop of `translatePkg` appends the names `pkgDeps` to the
descriptor of every file it visits and leaves the other descriptors alone. -/
theorem translatePkgDeps_ok (env : Env) (astFiles : List (String × File))
    (todo : List (String × File)) :
    ∀ (l l2 : Loader), (todo.map Prod.fst).Nodup →
      translatePkgDeps env astFiles l todo = .ok l2 →
      l2.astPkgs = l.astPkgs ∧
      (∀ name, name ∉ todo.map Prod.fst → l2.allProto.lookup name = l.allProto.lookup name) ∧
      (∀ name gfile pf, (name, gfile) ∈ todo → l.allProto.lookup name = some pf →
        l2.allProto.lookup name = some
          { pf with dependency := pf.dependency ++ pkgDeps env l astFiles name gfile }) := by
  induction todo with
  | nil =>
    intro l l2 _ h
    simp only [translatePkgDeps, Except.ok.injEq] at h
    subst h
    exact ⟨rfl, fun _ _ => rfl, fun _ _ _ hm _ => by cases hm⟩
  | cons e rest ih =>
    intro l l2 nd h
    obtain ⟨name0, gfile0⟩ := e
    simp only [List.map_cons, List.nodup_cons] at nd
    simp only [translatePkgDeps] at h
    split at h
    · rename_i pfile hp
      obtain ⟨b1, b2, b3⟩ := ih _ _ nd.2 h
      simp only at b1
      refine ⟨b1, ?_, ?_⟩
      · intro name hn
        simp only [List.map_cons, List.mem_cons, not_or] at hn
        rw [b2 name hn.2]
        simp only [GoMap.lookup_set, hn.1, if_false]
      · intro name gfile pf hm hl
        rcases List.mem_cons.mp hm with hm | hm
        · cases hm
          rw [hp] at hl
          cases hl
          rw [b2 _ nd.1]
          simp only [GoMap.lookup_set, if_true]
        · have hne : name ≠ name0 := by
            intro hh
            apply nd.1
            rw [← hh]
            exact List.mem_map_of_mem Prod.fst hm
          have hl2 := b3 name gfile pf hm
            (by simp only [GoMap.lookup_set, hne, if_false]; exact hl)
          rw [hl2]
          refine congrArg some ?_
          refine congrArg
            (fun d => ({ pf with dependency := pf.dependency ++ d } : FileDescriptorProto)) ?_
          exact pkgDeps_congr env l _ (by rfl) _ _ _
    · rename_i hp
      split at h
      · obtain ⟨b1, b2, b3⟩ := ih _ _ nd.2 h
        refine ⟨b1, ?_, ?_⟩
        · intro name hn
          simp only [List.map_cons, List.mem_cons, not_or] at hn
          exact b2 name hn.2
        · intro name gfile pf hm hl
          rcases List.mem_cons.mp hm with hm | hm
          · cases hm
            rw [hp] at hl
            cases hl
          · exact b3 name gfile pf hm hl
      · cases h

/-! ## C7: the dependency lists after `translatePkg` -/

theorem pkgFiles_nodup (l : Loader) (path : String) :
    ((pkgFiles l path).map Prod.fst).Nodup := by
  unfold pkgFiles
  split
  · exact List.nodup_nil
  · rename_i m _
    exact m.nodup

theorem mem_importDeps (env : Env) (l : Loader) (d : String) (imps : List ImportSpec) :
    d ∈ importDeps env l imps ↔
      ∃ imp ∈ imps, imp.isBlank = false ∧
        d ∈ (pkgFiles l (env.unquote imp.path.value)).map Prod.fst := by
  induction imps with
  | nil => simp [importDeps]
  | cons imp rest ih =>
    simp only [importDeps]
    by_cases hb : imp.isBlank = true
    · simp only [hb, if_true, ih, List.mem_cons, exists_eq_or_imp]
      simp
    · have hb2 : imp.isBlank = false := by simpa using hb
      simp only [hb2, Bool.false_eq_true, if_false, List.mem_append, ih, List.mem_cons,
        exists_eq_or_imp, true_and]

theorem mem_pkgDeps (env : Env) (l : Loader) (astFiles : List (String × File))
    (name : String) (gfile : File) (d : String) :
    d ∈ pkgDeps env l astFiles name gfile ↔
      (d ∈ astFiles.map Prod.fst ∧ d ≠ name) ∨
      ∃ imp ∈ gfile.imports, imp.isBlank = false ∧
        d ∈ (pkgFiles l (env.unquote imp.path.value)).map Prod.fst := by
  simp only [pkgDeps, List.mem_append, List.mem_filter, mem_importDeps, bne_iff_ne, ne_eq]
  constructor
  · rintro (⟨h1, h2⟩ | h)
    · exact Or.inl ⟨h1, fun hh => h2 hh.symm⟩
    · exact Or.inr h
  · rintro (⟨h1, h2⟩ | h)
    · exact Or.inl ⟨h1, fun hh => h2 hh.symm⟩
    · exact Or.inr h

/-- The two loops of `translatePkg`, for one file of the package: the first
leaves a descriptor `pf1` under the name of the file (the one that was there
before, if any), the second appends `pkgDeps` to its dependency list. -/
theorem translatePkg_appends (env : Env) (l l2 : Loader) (path name : String)
    (gfile : File) (h : translatePkg env l path = .ok l2)
    (hmem : (name, gfile) ∈ pkgFiles l path) :
    ∃ pf1 l1,
      translateFiles env path { l with tpkg := l.typePkgs.lookup path }
        ((pkgFiles l path).map Prod.fst) = .ok l1 ∧
      l2.astPkgs = l.astPkgs ∧
      (∀ pf0, l.allProto.lookup name = some pf0 → pf1 = pf0) ∧
      l1.allProto.lookup name = some pf1 ∧
      l2.allProto.lookup name = some
        { pf1 with dependency :=
            pf1.dependency ++ pkgDeps env l (pkgFiles l path) name gfile } := by
  unfold translatePkg at h
  simp only [] at h
  split at h
  · cases h
  · rename_i l1 h1
    have hpf : pkgFiles { l with tpkg := l.typePkgs.lookup path } path = pkgFiles l path := rfl
    rw [hpf] at h1 h
    obtain ⟨a1, a2, a3⟩ := translateFiles_ok env path _ _ _ h1
    obtain ⟨pf1, hpf1⟩ := a3 name (List.mem_map_of_mem Prod.fst hmem)
    obtain ⟨b1, _, b3⟩ := translatePkgDeps_ok env _ _ _ _ (pkgFiles_nodup l path) h
    have hfin := b3 name gfile pf1 hmem hpf1
    have hdeps : pkgDeps env l1 (pkgFiles l path) name gfile
        = pkgDeps env l (pkgFiles l path) name gfile :=
      pkgDeps_congr env l l1 a1 _ _ _
    rw [hdeps] at hfin
    refine ⟨pf1, l1, h1, b1.trans a1, ?_, hpf1, hfin⟩
    intro pf0 h0
    have := a2 name pf0 h0
    rw [hpf1] at this
    exact Option.some.inj this

/-- A second `translatePkg` on the result of a first one appends the names of
`pkgDeps` to every dependency list of the package once more. -/
theorem translatePkg_second_run (env : Env) (l l1 l2 : Loader) (path name : String)
    (gfile : File) (pfA : FileDescriptorProto)
    (h1 : translatePkg env l path = .ok l1) (h2 : translatePkg env l1 path = .ok l2)
    (hmem : (name, gfile) ∈ pkgFiles l path) (hA : l1.allProto.lookup name = some pfA) :
    ∃ pfB, l2.allProto.lookup name = some pfB ∧
      pfB.dependency = pfA.dependency ++ pkgDeps env l (pkgFiles l path) name gfile := by
  obtain ⟨_, _, _, e1, _, _, _⟩ := translatePkg_appends env l l1 path name gfile h1 hmem
  have hfiles : pkgFiles l1 path = pkgFiles l path := by simp only [pkgFiles, e1]
  have hmem1 : (name, gfile) ∈ pkgFiles l1 path := by rw [hfiles]; exact hmem
  obtain ⟨pf1, _, _, _, keep, _, hfin⟩ := translatePkg_appends env l1 l2 path name gfile h2 hmem1
  have hpf := keep pfA hA
  subst hpf
  rw [hfiles, pkgDeps_congr env l l1 e1] at hfin
  exact ⟨_, hfin, rfl⟩

/-- C7: after a successful `translatePkg`, the descriptor of every file of the
package has, appended to its dependency list as it was after the file was
translated, the names of the other files of the package and of every file of
every package that the source file imports under a name other than `_`, and
nothing else: so the list contains all of those, and a file that belongs only
to a package imported under the blank name is not added by this pass. -/
theorem translatePkg_dependencies (env : Env) (l l2 : Loader) (path name : String)
    (gfile : File) (h : translatePkg env l path = .ok l2)
    (hmem : (name, gfile) ∈ pkgFiles l path) :
    ∃ pf1 pf2 l1,
      translateFiles env path { l with tpkg := l.typePkgs.lookup path }
        ((pkgFiles l path).map Prod.fst) = .ok l1 ∧
      l1.allProto.lookup name = some pf1 ∧
      l2.allProto.lookup name = some pf2 ∧
      pf2.dependency = pf1.dependency ++ pkgDeps env l (pkgFiles l path) name gfile ∧
      (∀ oname ∈ (pkgFiles l path).map Prod.fst, oname ≠ name → oname ∈ pf2.dependency) ∧
      (∀ imp ∈ gfile.imports, imp.isBlank = false →
        ∀ oname ∈ (pkgFiles l (env.unquote imp.path.value)).map Prod.fst,
          oname ∈ pf2.dependency) ∧
      (∀ d ∈ pkgDeps env l (pkgFiles l path) name gfile,
        (d ∈ (pkgFiles l path).map Prod.fst ∧ d ≠ name) ∨
        ∃ imp ∈ gfile.imports, imp.isBlank = false ∧
          d ∈ (pkgFiles l (env.unquote imp.path.value)).map Prod.fst) := by
  obtain ⟨pf1, l1, h1, _, _, hpf1, hfin⟩ := translatePkg_appends env l l2 path name gfile h hmem
  refine ⟨pf1, _, l1, h1, hpf1, hfin, rfl, ?_, ?_, ?_⟩
  · intro oname ho hne
    exact List.mem_append_right _ ((mem_pkgDeps env l _ _ _ _).mpr (Or.inl ⟨ho, hne⟩))
  · intro imp hi hb oname ho
    exact List.mem_append_right _
      ((mem_pkgDeps env l _ _ _ _).mpr (Or.inr ⟨imp, hi, hb, ho⟩))
  · intro d hd
    exact (mem_pkgDeps env l _ _ _ _).mp hd

theorem translatePkg_dependencies_witness :
    (translatePkg sampleEnv twoFileLoader "p").map
        (fun l2 => (l2.allProto.lookup "p/a.gunk").map (fun pf => pf.dependency))
      = .ok (some ["p/b.gunk", "q/q.gunk"]) ∧
    ∃ l2, translatePkg sampleEnv twoFileLoader "p" = .ok l2 ∧
      ∃ pf1 pf2 l1,
        translateFiles sampleEnv "p"
          { twoFileLoader with tpkg := twoFileLoader.typePkgs.lookup "p" }
          ((pkgFiles twoFileLoader "p").map Prod.fst) = .ok l1 ∧
        l1.allProto.lookup "p/a.gunk" = some pf1 ∧
        l2.allProto.lookup "p/a.gunk" = some pf2 ∧
        pf2.dependency = pf1.dependency ++
          pkgDeps sampleEnv twoFileLoader (pkgFiles twoFileLoader "p") "p/a.gunk" fileA ∧
        (∀ oname ∈ (pkgFiles twoFileLoader "p").map Prod.fst, oname ≠ "p/a.gunk" →
          oname ∈ pf2.dependency) ∧
        (∀ imp ∈ fileA.imports, imp.isBlank = false →
          ∀ oname ∈ (pkgFiles twoFileLoader (sampleEnv.unquote imp.path.value)).map Prod.fst,
            oname ∈ pf2.dependency) ∧
        (∀ d ∈ pkgDeps sampleEnv twoFileLoader (pkgFiles twoFileLoader "p") "p/a.gunk" fileA,
          (d ∈ (pkgFiles twoFileLoader "p").map Prod.fst ∧ d ≠ "p/a.gunk") ∨
          ∃ imp ∈ fileA.imports, imp.isBlank = false ∧
            d ∈ (pkgFiles twoFileLoader (sampleEnv.unquote imp.path.value)).map Prod.fst) := by
  refine ⟨by decide, ?_⟩
  cases hr : translatePkg sampleEnv twoFileLoader "p" with
  | error e =>
    have hok : (translatePkg sampleEnv twoFileLoader "p").isOk = true := by decide
    rw [hr] at hok
    cases hok
  | ok l2 =>
    exact ⟨l2, rfl, translatePkg_dependencies sampleEnv twoFileLoader l2 "p" "p/a.gunk" fileA hr
      (List.Mem.head _)⟩

/-! ## C8: running `translatePkg` twice -/

/-- C8 at a package of two files: the first `translatePkg` leaves the
descriptor of `p/a.gunk` with the dependencies `p/b.gunk`, `q/q.gunk`; a second
`translatePkg` on the result succeeds and leaves it with each of them twice,
while messages are not built again. -/
theorem translatePkg_twice_appends_again :
    (translatePkg sampleEnv twoFileLoader "p").map
        (fun l1 => (l1.allProto.lookup "p/a.gunk").map (fun pf => pf.dependency))
      = .ok (some ["p/b.gunk", "q/q.gunk"]) ∧
    ((translatePkg sampleEnv twoFileLoader "p").bind
        (fun l1 => translatePkg sampleEnv l1 "p")).map
        (fun l2 => (l2.allProto.lookup "p/a.gunk").map (fun pf => pf.dependency))
      = .ok (some ["p/b.gunk", "q/q.gunk", "p/b.gunk", "q/q.gunk"]) ∧
    ((translatePkg sampleEnv twoFileLoader "p").bind
        (fun l1 => translatePkg sampleEnv l1 "p")).map
        (fun l2 => l2.allProto.lookup "p/a.gunk")
      ≠ (translatePkg sampleEnv twoFileLoader "p").map
        (fun l1 => l1.allProto.lookup "p/a.gunk") ∧
    ((translatePkg sampleEnv twoFileLoader "p").bind
        (fun l1 => translatePkg sampleEnv l1 "p")).map
        (fun l2 => (l2.allProto.lookup "p/a.gunk").map (fun pf => pf.messageType.length))
      = .ok (some 1) := by
  decide

/-! ## C9: the request handed to the generator -/

/-- C9: the `FileToGenerate` list of `requestForPkg` is sorted in ascending
order, has no duplicates and is a rearrangement of the file names recorded
for the package in the to-generate set (none when the package has no entry);
the parameter is "plugins=grpc" and `ProtoFile` lists the descriptors of the
registry, one per entry. -/
theorem requestForPkg_sorted (l : Loader) (path : String) :
    (requestForPkg l path).fileToGenerate.Sorted (fun a b => a ≤ b) ∧
    (requestForPkg l path).fileToGenerate.Nodup ∧
    (requestForPkg l path).fileToGenerate.Perm
      (match l.toGen.lookup path with
       | none => []
       | some m => m.keys) ∧
    (requestForPkg l path).parameter = some "plugins=grpc" ∧
    (requestForPkg l path).protoFile = l.allProto.entries.map Prod.snd ∧
    (requestForPkg l path).protoFile.length = l.allProto.keys.length := by
  have hperm : (requestForPkg l path).fileToGenerate.Perm
      (match l.toGen.lookup path with
       | none => []
       | some m => m.keys) := by
    simp only [requestForPkg, sortStrings]
    exact List.perm_insertionSort _ _
  refine ⟨?_, ?_, hperm, rfl, rfl, ?_⟩
  · simp only [requestForPkg, sortStrings]
    exact List.sorted_insertionSort _ _
  · rw [hperm.nodup_iff]
    split
    · exact List.nodup_nil
    · rename_i m _
      exact m.nodup
  · simp [requestForPkg, GoMap.values, GoMap.keys]

/-! ## C10: where `GeneratePkg` writes -/

/-- C10 at a source file below a directory whose name contains ".gunk": for
the returned file `p/foo.gunk.pb.go` the path written is
`/home/u/proj.pb.go/api/foo.gunk`, not `/home/u/proj.gunk/api/foo.pb.go`; from
`/home/u/api/foo.gunk` the path written is `/home/u/api/foo.pb.go`. -/
theorem GeneratePkg_replaces_first_occurrence :
    generatedPath gunkDirLoader "p/foo.gunk.pb.go" = "/home/u/proj.pb.go/api/foo.gunk" ∧
    generatedPath gunkDirLoader "p/foo.gunk.pb.go" ≠ "/home/u/proj.gunk/api/foo.pb.go" ∧
    GeneratePkg gunkDirLoader
        (fun _ => .ok [{ name := "p/foo.gunk.pb.go", content := "package p" }])
        (fun _ _ => none) "p"
      = .ok [("/home/u/proj.pb.go/api/foo.gunk", "package p")] ∧
    generatedPath plainDirLoader "p/foo.gunk.pb.go" = "/home/u/api/foo.pb.go" := by
  decide

/-! ## C11: the arity of interface methods -/

/-- A parameter or result list of two or more fields makes `protoParamType`
return its arity error. -/
theorem protoParamType_two_fields (l : Loader) (f g : Field) (rest : List Field) :
    protoParamType l (some (f :: g :: rest)) =
      .error (.error "need all methods to have <=1 results") := by
  simp [protoParamType]

theorem protoTypeIdent_not_error (l : Loader) (x : Ident) (pkg : Option Package) (m : String) :
    protoTypeIdent l x pkg ≠ .error (.error m) := by
  simp only [protoTypeIdent]
  split
  · simp
  · split
    · simp
    · split
      · simp
      · split
        · simp
        · split <;> simp

/-- The method `protoType` has no error result: it fails by returning the
type 0, or it panics. -/
theorem protoType_not_error (l : Loader) :
    ∀ (e : Expr) (pkg : Option Package) (m : String), protoType l e pkg ≠ .error (.error m)
  | .ident x, pkg, m => by
    simp only [protoType]
    exact protoTypeIdent_not_error l x pkg m
  | .selectorExpr x sel, pkg, m => by
    cases x with
    | ident id =>
      simp only [protoType]
      split
      · exact protoTypeIdent_not_error l sel _ m
      · simp
    | _ => simp [protoType]
  | .arrayType (some _) _, _, _ => by simp [protoType]
  | .arrayType none elt, pkg, m => by
    have ih := protoType_not_error l elt (pkgOrCurrent l pkg) m
    simp only [protoType]
    split
    · rename_i e he
      intro hc
      simp only [Except.error.injEq] at hc
      subst hc
      exact ih he
    · split <;> simp
  | .basicLit _, _, _ => by simp [protoType]
  | .compositeLit _ _, _, _ => by simp [protoType]
  | .keyValueExpr _ _, _, _ => by simp [protoType]
  | .structType _, _, _ => by simp [protoType]
  | .interfaceType _, _, _ => by simp [protoType]
  | .funcType _ _, _, _ => by simp [protoType]
  | .other _, _, _ => by simp [protoType]

/-- A parameter or result list of at most one field does not make
`protoParamType` return its arity error. -/
theorem protoParamType_arity_ok (l : Loader) (fields : Option (List Field))
    (h : fields = none ∨ fields = some [] ∨ ∃ f, fields = some [f]) :
    protoParamType l fields ≠ .error (.error "need all methods to have <=1 results") := by
  rcases h with h | h | ⟨f, h⟩ <;> subst h
  · simp [protoParamType]
  · simp [protoParamType]
  · simp only [protoParamType, List.length_singleton, gt_iff_lt, lt_self_iff_false, if_false]
    split
    · rename_i e he
      intro hc
      simp only [Except.error.injEq] at hc
      subst hc
      exact protoType_not_error l f.type none _ he
    · split <;> simp

theorem protoParamType_count (l : Loader) (fields : Option (List Field))
    (h : fieldCount fields > 1) :
    protoParamType l fields = .error (.error "need all methods to have <=1 results") := by
  cases fields with
  | none => simp [fieldCount] at h
  | some fs =>
    match fs, h with
    | [], h => simp [fieldCount] at h
    | [f], h => simp [fieldCount] at h
    | f :: g :: rest, _ => exact protoParamType_two_fields l f g rest

/-- The method loop of `protoService` does not succeed when one of the
methods has a parameter list or a result list of two or more fields. -/
theorem protoServiceMethods_arity (env : Env) (methods : List Field) :
    ∀ (l : Loader) (i : Nat) (acc : List MethodDescriptorProto),
      (∃ m ∈ methods, ∃ params results, m.type = .funcType params results ∧
        (fieldCount params > 1 ∨ fieldCount results > 1)) →
      (protoServiceMethods env l i methods acc).isOk = false := by
  induction methods with
  | nil =>
    intro l i acc h
    obtain ⟨m, hm, _⟩ := h
    cases hm
  | cons method rest ih =>
    intro l i acc h
    unfold protoServiceMethods
    split
    · simp only []
      split
      · rename_i params results hty
        cases hin : protoParamType (addDoc l method.doc
            (some (fun text => (env.splitGunkTag text).1))
            [env.servicePath, l.srvIndex, env.serviceMethodPath, toInt32 i]) params with
        | error e => rfl
        | ok r1 =>
          obtain ⟨inputType, l2⟩ := r1
          simp only []
          cases hout : protoParamType l2 results with
          | error e => rfl
          | ok r2 =>
            obtain ⟨outputType, l3⟩ := r2
            simp only []
            have hrest : ∃ m ∈ rest, ∃ params results, m.type = .funcType params results ∧
                (fieldCount params > 1 ∨ fieldCount results > 1) := by
              obtain ⟨m, hm, p, r, hmt, hc⟩ := h
              rcases List.mem_cons.mp hm with hme | hmr
              · subst hme
                rw [hty] at hmt
                simp only [Expr.funcType.injEq] at hmt
                obtain ⟨hp, hr⟩ := hmt
                subst hp hr
                rcases hc with hc | hc
                · rw [protoParamType_count _ _ hc] at hin
                  cases hin
                · rw [protoParamType_count _ _ hc] at hout
                  cases hout
              · exact ⟨m, hmr, p, r, hmt, hc⟩
            split
            · split
              · rfl
              · exact ih _ _ _ hrest
            · exact ih _ _ _ hrest
      · rfl
    · rfl

/-- The method `protoService` does not emit a service when one of the methods
has a parameter list or a result list of two or more fields. -/
theorem protoService_arity (env : Env) (l : Loader) (ts : TypeSpec) (methods : List Field)
    (hts : ts.type = .interfaceType methods)
    (h : ∃ m ∈ methods, ∃ params results, m.type = .funcType params results ∧
        (fieldCount params > 1 ∨ fieldCount results > 1)) :
    (protoService env l ts).isOk = false := by
  have hm := protoServiceMethods_arity env methods l 0 [] h
  simp only [protoService, hts]
  revert hm
  cases protoServiceMethods env l 0 methods [] with
  | error e => intro _; rfl
  | ok r => intro hm; cases hm

/-- C11 at the method `Ping(a, b Req) (x, y Resp)`: its signature declares two
parameters and two results, each pair in one field of its list, and
`protoService` emits the service with the input type of `Req` and the output
type of `Resp` instead of returning an error. -/
theorem protoService_grouped_parameters :
    numFields groupedParams = 2 ∧ numFields groupedResults = 2 ∧
    (protoService sampleEnv reqRespLoader groupedParamsSpec).map (fun r => r.1) =
      .ok { name := some "S", method :=
              [{ name := some "Ping", inputType := some ".p.Req",
                 outputType := some ".p.Resp" }] } := by
  decide

/-! ## C12: the declarations that `translateDecl` accepts -/

/-- The loop of `translateDecl` does not succeed when the right-hand side of
one of the type specs is not a struct type, an interface type or an
identifier. -/
theorem translateSpecs_bad_form (env : Env) (gd : GenDecl) (specs : List Spec) :
    ∀ (l : Loader), (∃ ts, Spec.typeSpec ts ∈ specs ∧ ts.type.isDeclForm = false) →
      (translateSpecs env gd l specs).isOk = false := by
  induction specs with
  | nil =>
    intro l h
    obtain ⟨ts, hts, _⟩ := h
    cases hts
  | cons spec rest ih =>
    intro l h
    cases spec with
    | typeSpec ts0 =>
      have hty : (match ts0.doc with
          | none => ({ ts0 with doc := gd.doc } : TypeSpec)
          | some _ => ts0).type = ts0.type := by
        cases ts0.doc <;> rfl
      have hrest : ts0.type.isDeclForm = true →
          ∃ ts, Spec.typeSpec ts ∈ rest ∧ ts.type.isDeclForm = false := by
        intro hform
        obtain ⟨ts, hts, hbad⟩ := h
        rcases List.mem_cons.mp hts with hh | hh
        · cases hh
          rw [hform] at hbad
          cases hbad
        · exact ⟨ts, hh, hbad⟩
      simp only [translateSpecs]
      split
      · rename_i fields heq
        rw [hty] at heq
        split
        · rfl
        · exact ih _ (hrest (by rw [heq]; rfl))
      · rename_i methods heq
        rw [hty] at heq
        split
        · rfl
        · exact ih _ (hrest (by rw [heq]; rfl))
      · rename_i id heq
        rw [hty] at heq
        split
        · rfl
        · exact ih _ (hrest (by rw [heq]; rfl))
      · rfl
    | valueSpec t => rfl
    | importSpec t => rfl

/-- The method `protoEnum` on `type S string` in a file that declares
`const A S = "a"`: the call `constant.Int64Val` panics on the string
constant. -/
theorem protoEnum_string_constant_panics :
    (protoEnum sampleEnv stringConstLoader
      { name := { name := "S" }, type := .ident { name := "string" } }).isPanic = true := by
  decide

/-- C12 at the declaration `type S string`: its right-hand side is an
identifier naming no integer base type, and `translateDecl` returns no error:
it succeeds and adds the enum `S` to the file descriptor, and when the file
declares `const A S = "a"` it panics in `protoEnum`. -/
theorem translateDecl_string_type_accepted :
    Expr.isSpecDeclForm (.ident { name := "string" }) = false ∧
    (translateDecl sampleEnv stringTypeLoader stringTypeDecl).isOk = true ∧
    (translateDecl sampleEnv stringTypeLoader stringTypeDecl).isError = false ∧
    (translateDecl sampleEnv stringTypeLoader stringTypeDecl).map
        (fun l2 => l2.pfile.enumType) = .ok [{ name := some "S", value := [] }] ∧
    (translateDecl sampleEnv stringConstLoader stringTypeDecl).isPanic = true ∧
    (translateDecl sampleEnv stringConstLoader stringTypeDecl).isError = false := by
  decide

/-- Where `translateDecl` does what its doc comment says: it returns success
and leaves the loader, and with it the file descriptor, unchanged for a const
and for an import declaration; it returns an error for a declaration that is
not a general declaration, for a general declaration whose token is not type,
const or import, and for a type declaration whose first spec has a right-hand
side that is not a struct type, an interface type or an identifier; with such
a spec in any position it does not succeed. -/
theorem translateDecl_forms (env : Env) (l : Loader) (gd gd2 gd3 gd4 : GenDecl) (nm : String)
    (ts ts4 : TypeSpec) (rest : List Spec)
    (h1 : gd.tok = .CONST ∨ gd.tok = .IMPORT)
    (h2 : gd2.tok ≠ .TYPE ∧ gd2.tok ≠ .CONST ∧ gd2.tok ≠ .IMPORT)
    (h3 : gd3.tok = .TYPE) (h3s : gd3.specs = .typeSpec ts :: rest)
    (h3t : ts.type.isDeclForm = false)
    (h4 : gd4.tok = .TYPE) (h4s : Spec.typeSpec ts4 ∈ gd4.specs)
    (h4t : ts4.type.isDeclForm = false) :
    translateDecl env l (.genDecl gd) = .ok l ∧
    (translateDecl env l (.funcDecl nm)).isError = true ∧
    (translateDecl env l .badDecl).isError = true ∧
    (translateDecl env l (.genDecl gd2)).isError = true ∧
    (translateDecl env l (.genDecl gd3)).isError = true ∧
    (translateDecl env l (.genDecl gd4)).isOk = false := by
  refine ⟨?_, rfl, rfl, ?_, ?_, ?_⟩
  · rcases h1 with h | h <;> simp only [translateDecl, h]
  · obtain ⟨a, b, c⟩ := h2
    cases htok : gd2.tok with
    | TYPE => exact absurd htok a
    | CONST => exact absurd htok b
    | IMPORT => exact absurd htok c
    | VAR => simp only [translateDecl, htok]; rfl
  · have hty : (match ts.doc with
        | none => ({ ts with doc := gd3.doc } : TypeSpec)
        | some _ => ts).type = ts.type := by
      cases ts.doc <;> rfl
    simp only [translateDecl, h3, h3s, translateSpecs]
    split
    · rename_i fields heq
      rw [hty] at heq
      rw [heq] at h3t
      cases h3t
    · rename_i methods heq
      rw [hty] at heq
      rw [heq] at h3t
      cases h3t
    · rename_i id heq
      rw [hty] at heq
      rw [heq] at h3t
      cases h3t
    · rfl
  · simp only [translateDecl, h4]
    exact translateSpecs_bad_form env gd4 gd4.specs l ⟨ts4, h4s, h4t⟩

theorem translateDecl_forms_witness :
    translateDecl sampleEnv sampleLoader (.genDecl { tok := .CONST, specs := [] })
      = .ok sampleLoader ∧
    (translateDecl sampleEnv sampleLoader (.funcDecl "f")).isError = true ∧
    (translateDecl sampleEnv sampleLoader .badDecl).isError = true ∧
    (translateDecl sampleEnv sampleLoader (.genDecl { tok := .VAR, specs := [] })).isError
      = true ∧
    (translateDecl sampleEnv sampleLoader (.genDecl mapTypeDecl)).isError = true ∧
    (translateDecl sampleEnv sampleLoader (.genDecl mapTypeDecl)).isOk = false :=
  translateDecl_forms sampleEnv sampleLoader { tok := .CONST, specs := [] }
    { tok := .VAR, specs := [] } mapTypeDecl mapTypeDecl "f"
    { name := { name := "T" }, type := .other "map[string]int" }
    { name := { name := "T" }, type := .other "map[string]int" } []
    (Or.inl rfl) (by decide) rfl rfl rfl rfl (List.Mem.head _) rfl

/-! ## C13: the type assertions of `interpretTagValue` -/

theorem interpretTagElt_keyed (env : Env) (rule : HttpRule) (elt : Expr)
    (h : elt.isKeyedLiteral = true) : ∃ r, interpretTagElt env rule elt = .ok r := by
  cases elt with
  | keyValueExpr key value =>
    cases key with
    | ident name =>
      cases value with
      | basicLit lit =>
        simp only [interpretTagElt]
        split
        · exact ⟨_, rfl⟩
        · split
          · split
            · exact ⟨_, rfl⟩
            · split <;> exact ⟨_, rfl⟩
          · split <;> exact ⟨_, rfl⟩
      | _ => simp [Expr.isKeyedLiteral] at h
    | _ => simp [Expr.isKeyedLiteral] at h
  | _ => simp [Expr.isKeyedLiteral] at h

/-- The loop of `interpretTagValue` returns a rule when every element of the
literal has the form `Key: "literal"`. -/
theorem interpretTagElts_keyed (env : Env) (elts : List Expr) :
    ∀ (rule : HttpRule), (∀ e ∈ elts, e.isKeyedLiteral = true) →
      ∃ r, interpretTagElts env rule elts = .ok r := by
  induction elts with
  | nil => intro rule _; exact ⟨rule, rfl⟩
  | cons elt rest ih =>
    intro rule h
    obtain ⟨r1, h1⟩ := interpretTagElt_keyed env rule elt (h elt (List.mem_cons_self _ _))
    obtain ⟨r2, h2⟩ := ih r1 (fun e he => h e (List.mem_cons_of_mem _ he))
    exact ⟨r2, by simp only [interpretTagElts, h1, h2]⟩

/-- A tag of the HTTP option type that parses to a composite literal whose
elements all have the form `Key: "literal"` yields a rule. -/
theorem interpretTagValue_keyed_ok (env : Env) (l : Loader) (tag : String) (typ : Option Expr)
    (elts : List Expr)
    (hty : env.evalType l.tpkg tag = .ok "github.com/gunk/opt/http.Match")
    (hparse : env.parseExpr tag = some (.compositeLit typ elts))
    (h : ∀ e ∈ elts, e.isKeyedLiteral = true) :
    ∃ rule, interpretTagValue env l tag = .ok (ExtensionDesc.E_Http, rule) := by
  obtain ⟨r, hr⟩ := interpretTagElts_keyed env elts {} h
  exact ⟨r, by simp only [interpretTagValue, hty, hparse, hr, if_true]⟩

/-- C13 as the code behaves: for a tag that type-checks to the HTTP option
type, `interpretTagValue` panics on a failed type assertion when the first
element of the literal is positional (not a key-value pair), when the value
of its first key-value pair is not a basic literal, and when the expression
is not a composite literal. -/
theorem interpretTagValue_panics (env : Env) (l : Loader) (tag1 tag2 tag3 : String)
    (typ1 typ2 : Option Expr) (elt key value e3 : Expr) (rest1 rest2 : List Expr)
    (hty1 : env.evalType l.tpkg tag1 = .ok "github.com/gunk/opt/http.Match")
    (hp1 : env.parseExpr tag1 = some (.compositeLit typ1 (elt :: rest1)))
    (hpos : ∀ k v, elt ≠ .keyValueExpr k v)
    (hty2 : env.evalType l.tpkg tag2 = .ok "github.com/gunk/opt/http.Match")
    (hp2 : env.parseExpr tag2 = some (.compositeLit typ2 (.keyValueExpr key value :: rest2)))
    (hval : ∀ lit, value ≠ .basicLit lit)
    (hty3 : env.evalType l.tpkg tag3 = .ok "github.com/gunk/opt/http.Match")
    (hp3 : env.parseExpr tag3 = some e3)
    (hnl : ∀ t es, e3 ≠ .compositeLit t es) :
    (interpretTagValue env l tag1).isPanic = true ∧
    (interpretTagValue env l tag2).isPanic = true ∧
    (interpretTagValue env l tag3).isPanic = true := by
  refine ⟨?_, ?_, ?_⟩
  · have h : ∀ rule, interpretTagElt env rule elt =
        .error (.panic "interface conversion: ast.Expr is not *ast.KeyValueExpr") := by
      intro rule
      cases elt with
      | keyValueExpr k v => exact absurd rfl (hpos k v)
      | _ => rfl
    simp only [interpretTagValue, hty1, hp1, if_true, interpretTagElts, h]
    rfl
  · have h : ∀ rule, interpretTagElt env rule (.keyValueExpr key value) =
        .error (.panic "interface conversion: ast.Expr is not *ast.BasicLit") := by
      intro rule
      cases value with
      | basicLit lit => exact absurd rfl (hval lit)
      | _ => rfl
    simp only [interpretTagValue, hty2, hp2, if_true, interpretTagElts, h]
    rfl
  · simp only [interpretTagValue, hty3, hp3, if_true]
    cases e3 with
    | compositeLit t es => exact absurd rfl (hnl t es)
    | _ => rfl

theorem interpretTagValue_panics_witness :
    (interpretTagValue assertEnv sampleLoader positionalTagText).isPanic = true ∧
    (interpretTagValue assertEnv sampleLoader concatTagText).isPanic = true ∧
    (interpretTagValue assertEnv sampleLoader parenTagText).isPanic = true :=
  interpretTagValue_panics assertEnv sampleLoader positionalTagText concatTagText parenTagText
    (some (.selectorExpr (.ident { name := "http" }) { name := "Match" }))
    (some (.selectorExpr (.ident { name := "http" }) { name := "Match" }))
    (.basicLit { value := "\"POST\"" }) (.ident { name := "Path" }) (.other "BinaryExpr")
    parenTag
    [ .basicLit { value := "\"/ping\"" }, .basicLit { value := "\"*\"" } ] []
    rfl rfl (by intro k v h; cases h) rfl rfl (by intro lit h; cases h)
    rfl rfl (by intro t es h; cases h)

/-! ## C14: the type name of a single parameter or result -/

/-- With one field, `protoParamType` returns the name that `protoType` gives
for the type of the field, whatever the type `protoType` returns with it, and
an error when that name is empty. -/
theorem protoParamType_one_field (l : Loader) (f : Field)
    (t : FieldDescriptorProto_Type) (lab : FieldDescriptorProto_Label) (tname : String)
    (h : protoType l f.type none = .ok (t, lab, tname)) :
    protoParamType l (some [f]) =
      if tname = "" then .error (.error "could not get type for field") else .ok (tname, l) := by
  simp [protoParamType, h]

/-- A parameter whose type `protoType` cannot resolve makes `protoParamType`
return an error. -/
theorem protoParamType_unresolved (l : Loader) (f : Field)
    (h : protoType l f.type none = .ok (0, 0, "")) :
    (protoParamType l (some [f])).isError = true := by
  rw [protoParamType_one_field l f 0 0 "" h]
  rfl

/-- C14 as the code behaves: for a single parameter (or result) of the scalar
type string, int, int32 or bool, `protoParamType` succeeds and returns the
scalar name itself as the type name, for every loader; for a parameter of the
type `S` declared as `type S string` in package `p` it returns ".p.S", which
names no struct type. -/
theorem protoParamType_scalar_succeeds (l : Loader) (doc : Option CommentGroup)
    (names : List Ident) (tag : Option BasicLit) (pos : Nat) :
    protoParamType l (some [FieldOf.mk doc names (.ident { name := "string", pos := pos }) tag])
      = .ok ("string", l) ∧
    protoParamType l (some [FieldOf.mk doc names (.ident { name := "int", pos := pos }) tag])
      = .ok ("int", l) ∧
    protoParamType l (some [FieldOf.mk doc names (.ident { name := "int32", pos := pos }) tag])
      = .ok ("int32", l) ∧
    protoParamType l (some [FieldOf.mk doc names (.ident { name := "bool", pos := pos }) tag])
      = .ok ("bool", l) ∧
    protoParamType stringTypeLoader (some [{ names := [], type := .ident { name := "S" } }])
      = .ok (".p.S", stringTypeLoader) ∧
    anySpec (Spec.isStructNamed "S") (pkgFiles stringTypeLoader "p") = false := by
  refine ⟨?_, ?_, ?_, ?_, rfl, rfl⟩ <;>
    simp [protoParamType, protoType, protoTypeIdent]

end Gunk
